import Mathlib

/-! # Latest semantic-version tag reachable from HEAD

A shallow embedding of the Go package `version` (`version.go`): the selector `Latest`
and its two resolvers `latestTag_gitbinary` (external `git` executable) and
`latestTag_gogit` (in-process repository library).

Everything the package obtains from outside itself is a parameter of the embedding:

* the semantic-version library (`semver.NewVersion`, `Version.GreaterThan`,
  `Version.String`) is the structure `Semver`;
* the operating system's process interface (`exec.LookPath`, `exec.Command`) is the
  structure `Exec`;
* the repository library (`git.PlainOpen`, `Head`, `CommitObject`, `TagObjects`,
  `IsAncestor`) is the structure `GoGitLib`.

Each resolver returns the Go result pair `(string, error)` together with the list of
outside calls it made, in the order it made them.
-/

set_option autoImplicit false

namespace Version

/-! ## Go values -/

/-- Go `error` values: a plain message (`errors.New`, `fmt.Errorf` without `%w`), a
message that wraps another error (`fmt.Errorf` with `%w`), and the sentinel `io.EOF`. -/
inductive GoError where
  | errorString (s : String)
  | wrapError (msg : String) (err : GoError)
  | EOF
  deriving DecidableEq, Repr

/-- The method `Error()` of an error value. -/
def GoError.Error : GoError → String
  | .errorString s => s
  | .wrapError msg _ => msg
  | .EOF => "EOF"

/-- The method `Unwrap()`: only an error built with `%w` has an inner error. -/
def GoError.Unwrap : GoError → Option GoError
  | .wrapError _ err => some err
  | _ => none

/-- The call `fmt.Errorf(pre + "%v", err)`: the message of `err` is formatted in,
the error itself is not kept. -/
def Errorf_v (pre : String) (err : GoError) : GoError :=
  .errorString (pre ++ err.Error)

/-- The call `fmt.Errorf(pre + "%w", err)`: the message of `err` is formatted in and
`err` is kept as the wrapped error. -/
def Errorf_w (pre : String) (err : GoError) : GoError :=
  .wrapError (pre ++ err.Error) err

/-- The call `fmt.Errorf(pre + "%d", n)` for an unsigned integer `n`. -/
def Errorf_d (pre : String) (n : Nat) : GoError :=
  .errorString (pre ++ toString n)

/-! ## The functions of package `strings` that the source calls -/

/-- Go's `unicode.IsSpace`: the characters with the Unicode White_Space property. -/
def isSpace (c : Char) : Bool :=
  let n := c.toNat
  n == 0x09 || n == 0x0A || n == 0x0B || n == 0x0C || n == 0x0D || n == 0x20 ||
  n == 0x85 || n == 0xA0 || n == 0x1680 || (0x2000 ≤ n && n ≤ 0x200A) ||
  n == 0x2028 || n == 0x2029 || n == 0x202F || n == 0x205F || n == 0x3000

/-- Go's `strings.TrimSpace`: all leading and trailing white space removed. -/
def TrimSpace (s : String) : String :=
  ⟨((s.data.dropWhile isSpace).reverse.dropWhile isSpace).reverse⟩

/-- The scan of `strings.Split` for a non-empty separator: `cur` holds the current
field reversed, `skip` the number of characters of a matched separator still to be
passed over. -/
def splitAux (sep : List Char) : List Char → List Char → Nat → List (List Char)
  | [], cur, _ => [cur.reverse]
  | _ :: rest, cur, skip + 1 => splitAux sep rest cur skip
  | c :: rest, cur, 0 =>
    if sep.isPrefixOf (c :: rest) then
      cur.reverse :: splitAux sep rest [] (sep.length - 1)
    else
      splitAux sep rest (c :: cur) 0

/-- Go's `strings.Split(s, sep)` for a non-empty `sep` (the source splits on a
newline and on a blank): the fields between the occurrences of `sep`, left to right. -/
def Split (s sep : String) : List String :=
  (splitAux sep.data s.data [] 0).map String.mk

/-- Go's `strings.HasSuffix`. -/
def HasSuffix (s suffix : String) : Bool :=
  suffix.data.isSuffixOf s.data

/-- Go's `strings.HasPrefix`. -/
def HasPrefix (s pre : String) : Bool :=
  pre.data.isPrefixOf s.data

/-- Go's `strings.TrimPrefix`: `s` without the leading `pre`, or `s` itself. -/
def TrimPrefix (s pre : String) : String :=
  if HasPrefix s pre then ⟨s.data.drop pre.data.length⟩ else s

/-- Go's `strings.TrimSuffix`: `s` without the trailing `suffix`, or `s` itself. -/
def TrimSuffix (s suffix : String) : String :=
  if HasSuffix s suffix then ⟨s.data.take (s.data.length - suffix.data.length)⟩ else s

/-! ## Outside capabilities -/

/-- The semantic-version library (`github.com/Masterminds/semver`) as the source uses
it: `semver.NewVersion`, `(*Version).GreaterThan` and `(*Version).String`. -/
structure Semver (V : Type) where
  NewVersion : String → Except GoError V
  GreaterThan : V → V → Bool
  String : V → String

/-- The process interface (`os/exec`): `LookPath file` gives the error of
`exec.LookPath(file)`; `CombinedOutput dir argv` gives what a command with arguments
`argv`, run in directory `dir`, returns from `CombinedOutput()`: its output and its
error (`nil` on exit status zero). -/
structure Exec where
  LookPath : String → Option GoError
  CombinedOutput : String → List String → String × Option GoError

/-- The method `Run()` of a command: the same execution, only the error is returned. -/
def Exec.Run (x : Exec) (dir : String) (argv : List String) : Option GoError :=
  (x.CombinedOutput dir argv).2

/-- A commit object (`object.Commit`); only its hash matters here. -/
structure Commit where
  Hash : String
  deriving DecidableEq, Repr

/-- A tag object (`object.Tag`): its own hash, its name and the hash it targets. -/
structure Tag where
  Hash : String
  Name : String
  Target : String
  deriving DecidableEq, Repr

/-- An opened repository (`git.Repository`): `Head` is `repo.Head()` followed by
`.Hash()`; `TagObjects` is `repo.TagObjects()`, the iterator given as the list of the
results its successive `Next()` calls return (after the list is used up `Next()`
returns `io.EOF`). -/
structure Repository where
  Head : Except GoError String
  CommitObject : String → Except GoError Commit
  TagObjects : Except GoError (List (Except GoError Tag))

/-- The repository library (`gopkg.in/src-d/go-git.v4`): `PlainOpen`, and
`IsAncestor c other` for `c.IsAncestor(other)`, which returns a boolean and an error. -/
structure GoGitLib where
  PlainOpen : String → Except GoError Repository
  IsAncestor : Commit → Commit → Bool × Option GoError

/-- The outside calls a resolver makes. -/
inductive Call where
  | LookPath (file : String)
  | Command (dir : String) (argv : List String)
  | PlainOpen (path : String)
  | Head
  | CommitObject (hash : String)
  | TagObjects
  | Next
  | IsAncestor (c other : String)
  deriving DecidableEq, Repr

/-- The result of a resolver: the Go pair `(string, error)` and the calls made. -/
abbrev Outcome := (String × Option GoError) × List Call

/-! ## `latestTag_gitbinary` -/

/-- The element type `struct{ Name, Revision string }` of the slice `tags`. -/
structure RefTag where
  Name : String
  Revision : String
  deriving DecidableEq, Repr

/-- The first loop of `latestTag_gitbinary` (over `refs`), with the slice `tags`
built so far as its state. -/
def showRefLoop : List String → List RefTag → List RefTag
  | [], tags => tags
  | ref :: refs, tags =>
    if !HasSuffix ref "^\x7b\x7d" then showRefLoop refs tags
    else
      match Split ref " " with
      | revision :: elem1 :: _ =>
        let name := TrimSuffix (TrimPrefix elem1 "refs/tags/") "^\x7b\x7d"
        showRefLoop refs (tags ++ [{ Name := name, Revision := revision }])
      | _ => showRefLoop refs tags

/-- The slice `tags` that `latestTag_gitbinary` extracts from the output of
`git show-ref --tags --dereference`. -/
def showRefTags (showRefOut : String) : List RefTag :=
  showRefLoop (Split showRefOut "\n") []

/-- The assignment `if ver == nil || v.GreaterThan(ver) { ver = v }`. -/
def keepGreater {V : Type} (sv : Semver V) (ver : Option V) (v : V) : Option V :=
  match ver with
  | none => some v
  | some cur => if sv.GreaterThan v cur then some v else some cur

/-- The argument vector of `exec.Command("git", "rev-parse", "HEAD")`. -/
def revParseArgs : List String :=
  ["git", "rev-parse", "HEAD"]

/-- The argument vector of `exec.Command("git", "show-ref", "--tags", "--dereference")`. -/
def showRefArgs : List String :=
  ["git", "show-ref", "--tags", "--dereference"]

/-- The argument vector of the ancestry test. -/
def mergeBaseArgs (revision headRev : String) : List String :=
  ["git", "merge-base", "--is-ancestor", revision, headRev]

/-- The second loop of `latestTag_gitbinary` (over `tags`), with the pointer `ver`
as its state; it returns the final `ver` and the commands it ran. -/
def tagLoop_gitbinary {V : Type} (x : Exec) (sv : Semver V) (path headRev : String) :
    List RefTag → Option V → Option V × List Call
  | [], ver => (ver, [])
  | tag :: tags, ver =>
    match sv.NewVersion tag.Name with
    | .error _ => tagLoop_gitbinary x sv path headRev tags ver
    | .ok v =>
      let argv := mergeBaseArgs tag.Revision headRev
      let r :=
        match x.Run path argv with
        | some _ => tagLoop_gitbinary x sv path headRev tags ver
        | none => tagLoop_gitbinary x sv path headRev tags (keepGreater sv ver v)
      (r.1, Call.Command path argv :: r.2)

/-- The resolver that drives the `git` executable. -/
def latestTag_gitbinary {V : Type} (x : Exec) (sv : Semver V) (path : String) : Outcome :=
  match x.LookPath "git" with
  | some err => (("", some (Errorf_v "find git binary: " err)), [Call.LookPath "git"])
  | none =>
    match x.CombinedOutput path revParseArgs with
    | (_, some err) =>
      (("", some (Errorf_v "cmd git rev-parse: " err)),
        [Call.LookPath "git", Call.Command path revParseArgs])
    | (revParseOut, none) =>
      let headRev := TrimSpace revParseOut
      match x.CombinedOutput path showRefArgs with
      | (_, some err) =>
        (("", some (Errorf_v "cmd git show-ref: " err)),
          [Call.LookPath "git", Call.Command path revParseArgs,
            Call.Command path showRefArgs])
      | (showRefOut, none) =>
        let tags := showRefTags showRefOut
        let r := tagLoop_gitbinary x sv path headRev tags none
        let calls :=
          [Call.LookPath "git", Call.Command path revParseArgs,
            Call.Command path showRefArgs] ++ r.2
        match r.1 with
        | some ver => ((sv.String ver, none), calls)
        | none => (("", some (GoError.errorString "no semver compliant tags found")), calls)

/-! ## `latestTag_gogit` -/

/-- The loop of `latestTag_gogit` over the tag iterator, with the pointer `ver` as
its state; it returns the final `ver`, the value of the loop's own variable `err`
when the loop ends, and the calls made. -/
def tagLoop_gogit {V : Type} (g : GoGitLib) (sv : Semver V) (repo : Repository)
    (headCommit : Commit) :
    List (Except GoError Tag) → Option V → Option V × GoError × List Call
  | [], ver => (ver, GoError.EOF, [Call.Next])
  | .error err :: _, ver => (ver, err, [Call.Next])
  | .ok tag :: iter, ver =>
    match sv.NewVersion tag.Name with
    | .error _ =>
      let r := tagLoop_gogit g sv repo headCommit iter ver
      (r.1, r.2.1, Call.Next :: r.2.2)
    | .ok v =>
      match repo.CommitObject tag.Target with
      | .error _ =>
        let r := tagLoop_gogit g sv repo headCommit iter ver
        (r.1, r.2.1, Call.Next :: Call.CommitObject tag.Target :: r.2.2)
      | .ok tagCommit =>
        let r :=
          match g.IsAncestor tagCommit headCommit with
          | (_, some _) => tagLoop_gogit g sv repo headCommit iter ver
          | (false, none) => tagLoop_gogit g sv repo headCommit iter ver
          | (true, none) => tagLoop_gogit g sv repo headCommit iter (keepGreater sv ver v)
        (r.1, r.2.1,
          Call.Next :: Call.CommitObject tag.Target ::
            Call.IsAncestor tagCommit.Hash headCommit.Hash :: r.2.2)

/-- The statements of `latestTag_gogit` after the loop (lines 147 to 155), on the
value of the variable `err` that is in scope there and the pointer `ver`. -/
def afterLoop_gogit {V : Type} (sv : Semver V) (err : Option GoError) (ver : Option V) :
    String × Option GoError :=
  match err with
  | some e =>
    if e ≠ GoError.EOF then ("", some (Errorf_w "get next tag: " e))
    else
      match ver with
      | none => ("", some (GoError.errorString "no parseable tag found"))
      | some ver => (sv.String ver, none)
  | none =>
    match ver with
    | none => ("", some (GoError.errorString "no parseable tag found"))
    | some ver => (sv.String ver, none)

/-- The resolver that reads the repository in process. The `for` statement declares
its own `tag` and `err` (`for tag, err := tagIter.Next(); ...`), which go out of scope
with the loop: the `err` that the statements after the loop read is the variable of
the function, last assigned by `repo.TagObjects()` and `nil` whenever the loop is
reached. -/
def latestTag_gogit {V : Type} (g : GoGitLib) (sv : Semver V) (path : String) : Outcome :=
  match g.PlainOpen path with
  | .error err => (("", some (Errorf_w "open git repo: " err)), [Call.PlainOpen path])
  | .ok repo =>
    match repo.Head with
    | .error err =>
      (("", some (Errorf_v "get HEAD ref: " err)), [Call.PlainOpen path, Call.Head])
    | .ok head =>
      match repo.CommitObject head with
      | .error err =>
        (("", some (Errorf_v "get HEAD commit: " err)),
          [Call.PlainOpen path, Call.Head, Call.CommitObject head])
      | .ok headCommit =>
        match repo.TagObjects with
        | .error err =>
          (("", some (Errorf_w "get tag objects: " err)),
            [Call.PlainOpen path, Call.Head, Call.CommitObject head, Call.TagObjects])
        | .ok tagIter =>
          let err : Option GoError := none
          let r := tagLoop_gogit g sv repo headCommit tagIter none
          let calls :=
            [Call.PlainOpen path, Call.Head, Call.CommitObject head, Call.TagObjects] ++ r.2.2
          (afterLoop_gogit sv err r.1, calls)

/-! ## `Latest` -/

/-- The constant `GitBinary` (`iota` = 0). -/
def GitBinary : Nat := 0

/-- The constant `GoGit` (`iota` = 1). -/
def GoGit : Nat := 1

/-- The selector: `method` is a value of the unsigned type `Method`. -/
def Latest {V : Type} (x : Exec) (g : GoGitLib) (sv : Semver V) (method : Nat)
    (path : String) : Outcome :=
  if method = GitBinary then latestTag_gitbinary x sv path
  else if method = GoGit then latestTag_gogit g sv path
  else (("", some (Errorf_d "invalid method: " method)), [])

/-! ## A concrete semantic-version capability and concrete repositories

The theorems below hold for every capability; concrete instances are needed to
evaluate the resolvers on examples. -/

/-- Modelled from the spec: the semantic-version capability (the library
`github.com/Masterminds/semver` is an outside dependency). A version is
`major.minor.patch` with an optional pre-release after `-` and optional build
metadata after `+`; absent parts are the empty string. -/
structure SemVersion where
  major : Nat
  minor : Nat
  patch : Nat
  pre : String
  metadata : String
  deriving DecidableEq, Repr

/-- The value of a non-empty string of decimal digits, with `acc` the digits read. -/
def parseDigits : List Char → Nat → Option Nat
  | [], acc => some acc
  | c :: cs, acc => if c.isDigit then parseDigits cs (10 * acc + (c.toNat - 48)) else none

/-- The value of a non-empty string of decimal digits. -/
def parseUint (s : List Char) : Option Nat :=
  if s = [] then none else parseDigits s 0

/-- The part of `s` before the first `c` and, when `c` occurs, the part after it. -/
def cut (c : Char) (s : List Char) : List Char × Option (List Char) :=
  match s.span (fun d => d != c) with
  | (a, []) => (a, none)
  | (a, _ :: b) => (a, some b)

/-- Dot-separated non-empty identifiers over `[0-9A-Za-z-]`. -/
def validIdents (s : List Char) : Bool :=
  (splitAux ['.'] s [] 0).all fun id => !id.isEmpty && id.all fun c => c.isAlphanum || c == '-'

/-- The error of an invalid version string. -/
def ErrInvalidSemVer : GoError := .errorString "Invalid Semantic Version"

/-- Modelled from the spec: `parseVersion(string) -> Version | error`. -/
def SemVersion.parse (s : String) : Except GoError SemVersion :=
  let (rest, metadata) := cut '+' s.data
  let (core, pre) := cut '-' rest
  match (splitAux ['.'] core [] 0).map parseUint with
  | [some major, some minor, some patch] =>
    if pre.all validIdents && metadata.all validIdents then
      .ok { major := major, minor := minor, patch := patch,
            pre := ⟨pre.getD []⟩, metadata := ⟨metadata.getD []⟩ }
    else .error ErrInvalidSemVer
  | _ => .error ErrInvalidSemVer

/-- The precedence key of one pre-release identifier: a numeric identifier is below
every alphanumeric one, numeric identifiers compare by value, alphanumeric ones
character by character (a proper beginning of an identifier is below it). -/
def identKey (id : List Char) : List Nat :=
  match parseUint id with
  | some n => [1, n]
  | none => 2 :: (id.map fun c => c.toNat + 1) ++ [0]

/-- The precedence key of a version: major, minor, patch, then `1` for a release and
`0` followed by the keys of the pre-release identifiers for a pre-release. Build
metadata has no part in precedence. -/
def SemVersion.key (v : SemVersion) : List Nat :=
  [v.major, v.minor, v.patch] ++
    (if v.pre = "" then [1]
     else 0 :: ((splitAux ['.'] v.pre.data [] 0).map identKey).flatten)

/-- Lexicographic strict order on lists of numbers. -/
def lexLt : List Nat → List Nat → Bool
  | _, [] => false
  | [], _ :: _ => true
  | a :: as, b :: bs => decide (a < b) || (a == b && lexLt as bs)

/-- Modelled from the spec: `compare(Version, Version) -> order`, read as strictly
greater; the order on (major, minor, patch, pre-release precedence). -/
def SemVersion.GreaterThan (v o : SemVersion) : Bool :=
  lexLt o.key v.key

/-- Modelled from the spec: the canonical string form of a version. -/
def SemVersion.String (v : SemVersion) : String :=
  toString v.major ++ "." ++ toString v.minor ++ "." ++ toString v.patch ++
    (if v.pre = "" then "" else "-" ++ v.pre) ++
    (if v.metadata = "" then "" else "+" ++ v.metadata)

/-- The concrete semantic-version capability. -/
def semver : Semver SemVersion :=
  { NewVersion := SemVersion.parse
    GreaterThan := SemVersion.GreaterThan
    String := SemVersion.String }

/-- A repository state: the commit `head`, the annotated tags in the order a backend
enumerates them, and the ancestry relation (`ancestor a b`: commit `a` is an
ancestor of commit `b`). -/
structure RepoState where
  head : String
  tags : List Tag
  ancestor : String → String → Bool

/-- The two lines that `git show-ref --tags --dereference` prints for an annotated
tag: the tag object, then the commit it dereferences to, marked `^{}`. -/
def showRefLines (t : Tag) : String :=
  t.Hash ++ " refs/tags/" ++ t.Name ++ "\n" ++
    t.Target ++ " refs/tags/" ++ t.Name ++ "^\x7b\x7d\n"

/-- The listing that `git show-ref --tags --dereference` prints for the tags. -/
def showRefListing : List Tag → String
  | [] => ""
  | t :: ts => showRefLines t ++ showRefListing ts

/-- Modelled from the spec: the `git` executable on a repository state. `rev-parse
HEAD` prints the head commit, `show-ref --tags --dereference` prints the listing,
`merge-base --is-ancestor a b` exits with status zero exactly when `a` is an
ancestor of `b`. -/
def gitExec (st : RepoState) : Exec :=
  { LookPath := fun _ => none
    CombinedOutput := fun _ argv =>
      match argv with
      | ["git", "rev-parse", "HEAD"] => (st.head ++ "\n", none)
      | ["git", "show-ref", "--tags", "--dereference"] => (showRefListing st.tags, none)
      | ["git", "merge-base", "--is-ancestor", a, b] =>
        if st.ancestor a b then ("", none) else ("", some (.errorString "exit status 1"))
      | _ => ("", some (.errorString "exit status 129")) }

/-- Modelled from the spec: the repository that the repository library opens on a
repository state. Every hash loads as a commit, the tag iterator yields the tag
objects and then ends. -/
def gogitRepo (st : RepoState) : Repository :=
  { Head := .ok st.head
    CommitObject := fun h => .ok { Hash := h }
    TagObjects := .ok (st.tags.map Except.ok) }

/-- Modelled from the spec: the repository library on a repository state. Every path
opens, and a commit is reported an ancestor of another as the state says. -/
def gogitLib (st : RepoState) : GoGitLib :=
  { PlainOpen := fun _ => .ok (gogitRepo st)
    IsAncestor := fun c other => (st.ancestor c.Hash other.Hash, none) }

/-! ## The contract of the tag-resolution algorithm, in the words of the specification -/

/-- The reduction of the surviving versions to the maximum (specification, steps
"reduce" of both resolvers), starting from the current best `ver`. -/
def reduce {V : Type} (sv : Semver V) (cands : List V) (ver : Option V) : Option V :=
  cands.foldl (keepGreater sv) ver

/-- The commit that `latestTag_gitbinary` takes for HEAD. -/
def headRev_gitbinary (x : Exec) (path : String) : String :=
  TrimSpace (x.CombinedOutput path revParseArgs).1

/-- The tags that `latestTag_gitbinary` enumerates. -/
def enumerated_gitbinary (x : Exec) (path : String) : List RefTag :=
  showRefTags (x.CombinedOutput path showRefArgs).1

/-- The version with which a tag survives in the process-backed resolver: its name
parses and the ancestry test of its revision against `headRev` exits with status zero. -/
def candidate_gitbinary {V : Type} (x : Exec) (sv : Semver V) (path headRev : String)
    (tag : RefTag) : Option V :=
  match sv.NewVersion tag.Name with
  | .error _ => none
  | .ok v =>
    match x.Run path (mergeBaseArgs tag.Revision headRev) with
    | some _ => none
    | none => some v

/-- The tags that the iterator hands out: the results before the first error. -/
def iterTags : List (Except GoError Tag) → List Tag
  | .ok tag :: iter => tag :: iterTags iter
  | _ => []

/-- The error that ends the iteration: the first error among the results, `io.EOF`
when there is none. -/
def iterEnd : List (Except GoError Tag) → GoError
  | [] => GoError.EOF
  | .error err :: _ => err
  | .ok _ :: iter => iterEnd iter

/-- The version with which a tag survives in the library-backed resolver: its name
parses, its target loads as a commit, and that commit is reported an ancestor of the
head commit without an error. -/
def candidate_gogit {V : Type} (g : GoGitLib) (sv : Semver V) (repo : Repository)
    (headCommit : Commit) (tag : Tag) : Option V :=
  match sv.NewVersion tag.Name with
  | .error _ => none
  | .ok v =>
    match repo.CommitObject tag.Target with
    | .error _ => none
    | .ok tagCommit =>
      match g.IsAncestor tagCommit headCommit with
      | (true, none) => some v
      | _ => none

/-- The no-matching-tag error of `latestTag_gitbinary`. -/
def noMatch_gitbinary : GoError :=
  .errorString "no semver compliant tags found"

/-- The no-matching-tag error of `latestTag_gogit`. -/
def noMatch_gogit : GoError :=
  .errorString "no parseable tag found"

/-- The process interface `x` with the output of the tag listing replaced by
`showRefOut` (exit status zero), everything else unchanged. -/
def Exec.withShowRef (x : Exec) (showRefOut : String) : Exec :=
  { LookPath := x.LookPath
    CombinedOutput := fun dir argv =>
      if argv = showRefArgs then (showRefOut, none) else x.CombinedOutput dir argv }

/-- The repository library `g` with the tag iterator of every repository replaced by
`iter`, everything else unchanged. -/
def GoGitLib.withTagObjects (g : GoGitLib) (iter : List (Except GoError Tag)) : GoGitLib :=
  { PlainOpen := fun path =>
      match g.PlainOpen path with
      | .error err => .error err
      | .ok repo =>
        .ok { Head := repo.Head, CommitObject := repo.CommitObject, TagObjects := .ok iter }
    IsAncestor := g.IsAncestor }

/-- A line that the specification counts: it carries the dereference marker `^{}` at
its end and has at least two blank-separated fields. -/
def dereferencedLine (ref : String) : Bool :=
  HasSuffix ref "^\x7b\x7d" && decide (2 ≤ (Split ref " ").length)

/-- The pair that a counted line contributes: the first field as the revision, and
the second field without the reference-namespace beginning `refs/tags/` and without
the dereference marker at its end as the name. -/
def linePair (ref : String) : RefTag :=
  { Name := TrimSuffix (TrimPrefix ((Split ref " ").getD 1 "") "refs/tags/") "^\x7b\x7d"
    Revision := (Split ref " ").getD 0 "" }

/-- A field of a listing line: it has no white space in it. -/
def plainField (s : String) : Bool :=
  s.data.all fun c => !isSpace c

/-- A tag as `git` admits it: hashes and name without white space, and the name does
not end with the dereference marker `^{}`. -/
def wellFormedTag (t : Tag) : Bool :=
  plainField t.Hash && plainField t.Name && plainField t.Target &&
    !HasSuffix t.Name "^\x7b\x7d"

/-- A repository state whose head commit and tags are well formed. -/
def wellFormed (st : RepoState) : Bool :=
  plainField st.head && st.tags.all wellFormedTag

/-- The tag that the process-backed resolver extracts for a tag object: the name and
the commit it dereferences to. -/
def refTagOf (t : Tag) : RefTag :=
  { Name := t.Name, Revision := t.Target }

/-- The two resolvers agree: they return the same version string, or both return
their no-matching-tag error. -/
def sameOutcome (r1 r2 : String × Option GoError) : Prop :=
  (∃ s, r1 = (s, none) ∧ r2 = (s, none)) ∨
    (r1 = ("", some noMatch_gitbinary) ∧ r2 = ("", some noMatch_gogit))

/-- The version with which a tag survives on a repository state: its name parses and
the commit it targets is an ancestor of the head commit. -/
def candidate_state {V : Type} (sv : Semver V) (head : String)
    (ancestor : String → String → Bool) (t : Tag) : Option V :=
  match sv.NewVersion t.Name with
  | .error _ => none
  | .ok v => if ancestor t.Target head then some v else none

/-! ## Example repositories -/

/-- Tags "0.9.0", "1.0.0", "1.2.0-rc1" and "2.0.0", all on ancestors of HEAD. -/
def exampleMaximality : RepoState :=
  { head := "f00d"
    tags := [⟨"a1", "0.9.0", "c1"⟩, ⟨"a2", "1.0.0", "c2"⟩, ⟨"a3", "1.2.0-rc1", "c3"⟩,
      ⟨"a4", "2.0.0", "c4"⟩]
    ancestor := fun _ _ => true }

/-- Tag "1.0.0" on an ancestor of HEAD, tag "9.9.9" on a diverged branch. -/
def exampleAncestry : RepoState :=
  { head := "f00d"
    tags := [⟨"a1", "1.0.0", "c1"⟩, ⟨"a2", "9.9.9", "c2"⟩]
    ancestor := fun a _ => a == "c1" }

/-- Tags "1.0.0" and "1.1.0" on ancestors of HEAD. -/
def exampleParse : RepoState :=
  { head := "f00d"
    tags := [⟨"a1", "1.0.0", "c1"⟩, ⟨"a3", "1.1.0", "c3"⟩]
    ancestor := fun _ _ => true }

/-- The tags of `exampleParse`, enumerated in the other order. -/
def exampleParseSwapped : RepoState :=
  { head := "f00d"
    tags := [⟨"a3", "1.1.0", "c3"⟩, ⟨"a1", "1.0.0", "c1"⟩]
    ancestor := fun _ _ => true }

/-- A repository without tags. -/
def exampleNoTags : RepoState :=
  { head := "f00d"
    tags := []
    ancestor := fun _ _ => true }

/-- Tags "1.0.0+a" and "1.0.0+b" on ancestors of HEAD: two versions that differ in
build metadata only. -/
def exampleTie : RepoState :=
  { head := "f00d"
    tags := [⟨"a1", "1.0.0+a", "c1"⟩, ⟨"a2", "1.0.0+b", "c2"⟩]
    ancestor := fun _ _ => true }

/-- The tags of `exampleTie`, enumerated in the other order. -/
def exampleTieSwapped : RepoState :=
  { head := "f00d"
    tags := [⟨"a2", "1.0.0+b", "c2"⟩, ⟨"a1", "1.0.0+a", "c1"⟩]
    ancestor := fun _ _ => true }

/-- A directory that is not a repository: every `git` command prints a diagnostic
and exits with status 128. -/
def exampleNotARepo : Exec :=
  { LookPath := fun _ => none
    CombinedOutput := fun _ _ =>
      ("fatal: not a git repository (or any of the parent directories): .git\n",
        some (.errorString "exit status 128")) }

/-- A repository in which `rev-parse` succeeds and `show-ref` exits with status 1
after printing a diagnostic. -/
def exampleShowRefFails : Exec :=
  { LookPath := fun _ => none
    CombinedOutput := fun _ argv =>
      if argv = revParseArgs then ("f00d\n", none)
      else ("error: cannot lock ref\n", some (.errorString "exit status 1")) }

/-- An iterator whose first `Next()` fails to read an object. -/
def exampleFailedIter : List (Except GoError Tag) :=
  [.error (.errorString "object not found")]

/-- An iterator that hands out the tag "1.0.0" and then fails to read an object. -/
def exampleBrokenIter : List (Except GoError Tag) :=
  [.ok ⟨"a1", "1.0.0", "c1"⟩, .error (.errorString "object not found"),
    .ok ⟨"a2", "2.0.0", "c2"⟩]

/-! ## Lemmas on the reduction -/

theorem reduce_nil {V : Type} (sv : Semver V) (ver : Option V) : reduce sv [] ver = ver := rfl

theorem reduce_cons {V : Type} (sv : Semver V) (c : V) (cs : List V) (ver : Option V) :
    reduce sv (c :: cs) ver = reduce sv cs (keepGreater sv ver c) := rfl

theorem reduce_append {V : Type} (sv : Semver V) (as bs : List V) (ver : Option V) :
    reduce sv (as ++ bs) ver = reduce sv bs (reduce sv as ver) := by
  simp [reduce, List.foldl_append]

theorem keepGreater_isSome {V : Type} (sv : Semver V) (ver : Option V) (v : V) :
    ∃ m, keepGreater sv ver v = some m := by
  unfold keepGreater
  cases ver with
  | none => exact ⟨v, rfl⟩
  | some cur => by_cases h : sv.GreaterThan v cur = true <;> simp [h]

theorem reduce_some {V : Type} (sv : Semver V) (cs : List V) (w : V) :
    ∃ m, reduce sv cs (some w) = some m := by
  induction cs generalizing w with
  | nil => exact ⟨w, rfl⟩
  | cons c cs ih =>
    obtain ⟨m, hm⟩ := keepGreater_isSome sv (some w) c
    rw [reduce_cons, hm]
    exact ih m

theorem reduce_eq_none {V : Type} (sv : Semver V) (cs : List V) :
    reduce sv cs none = none ↔ cs = [] := by
  cases cs with
  | nil => simp [reduce]
  | cons c cs =>
    obtain ⟨m, hm⟩ := reduce_some sv cs c
    simp [reduce_cons, keepGreater, hm]

theorem reduce_mem {V : Type} (sv : Semver V) (cs : List V) (ver : Option V) (m : V)
    (h : reduce sv cs ver = some m) : m ∈ cs ∨ ver = some m := by
  induction cs generalizing ver with
  | nil => exact Or.inr h
  | cons c cs ih =>
    rw [reduce_cons] at h
    rcases ih _ h with hm | hm
    · exact Or.inl (List.mem_cons_of_mem _ hm)
    · unfold keepGreater at hm
      cases ver with
      | none =>
        simp at hm
        exact Or.inl (by simp [hm])
      | some cur =>
        by_cases hg : sv.GreaterThan c cur = true
        · simp [hg] at hm
          exact Or.inl (by simp [hm])
        · simp [hg] at hm
          exact Or.inr (by simp [hm])

theorem reduce_max {V : Type} (sv : Semver V)
    (hirr : ∀ a, sv.GreaterThan a a = false)
    (htrans : ∀ a b c, sv.GreaterThan a b = true → sv.GreaterThan b c = true →
      sv.GreaterThan a c = true)
    (cs : List V) (ver : Option V) (m : V) (h : reduce sv cs ver = some m) :
    (∀ c ∈ cs, sv.GreaterThan c m = false) ∧
      (∀ w, ver = some w → m = w ∨ sv.GreaterThan m w = true) := by
  induction cs generalizing ver with
  | nil =>
    refine ⟨by simp, ?_⟩
    intro w hw
    rw [reduce_nil, hw] at h
    exact Or.inl (Option.some.inj h).symm
  | cons c cs ih =>
    rw [reduce_cons] at h
    obtain ⟨hcs, hinit⟩ := ih _ h
    have hasym : ∀ a b, sv.GreaterThan a b = true → sv.GreaterThan b a = false := by
      intro a b hab
      cases hba : sv.GreaterThan b a with
      | false => rfl
      | true =>
        have := htrans a b a hab hba
        rw [hirr] at this
        exact absurd this (by simp)
    cases ver with
    | none =>
      have hm := hinit c (by simp [keepGreater])
      refine ⟨?_, by simp⟩
      intro d hd
      rcases List.mem_cons.mp hd with rfl | hd
      · rcases hm with rfl | hm
        · exact hirr _
        · exact hasym _ _ hm
      · exact hcs d hd
    | some w =>
      by_cases hg : sv.GreaterThan c w = true
      · have hm := hinit c (by simp [keepGreater, hg])
        refine ⟨?_, ?_⟩
        · intro d hd
          rcases List.mem_cons.mp hd with rfl | hd
          · rcases hm with rfl | hm
            · exact hirr _
            · exact hasym _ _ hm
          · exact hcs d hd
        · intro w2 hw2
          cases hw2
          rcases hm with rfl | hm
          · exact Or.inr hg
          · exact Or.inr (htrans _ _ _ hm hg)
      · have hm := hinit w (by simp [keepGreater, hg])
        refine ⟨?_, ?_⟩
        · intro d hd
          rcases List.mem_cons.mp hd with rfl | hd
          · rcases hm with rfl | hm
            · simpa using hg
            · cases hdm : sv.GreaterThan d m with
              | false => rfl
              | true => exact absurd (htrans _ _ _ hdm hm) hg
          · exact hcs d hd
        · intro w2 hw2
          cases hw2
          exact hm


/-! ## The loops compute the reduction over the surviving tags -/

theorem tagLoop_gitbinary_fst {V : Type} (x : Exec) (sv : Semver V) (path headRev : String)
    (tags : List RefTag) (ver : Option V) :
    (tagLoop_gitbinary x sv path headRev tags ver).1 =
      reduce sv (tags.filterMap (candidate_gitbinary x sv path headRev)) ver := by
  induction tags generalizing ver with
  | nil => rfl
  | cons tag tags ih =>
    rw [tagLoop_gitbinary, List.filterMap_cons]
    cases hp : sv.NewVersion tag.Name with
    | error e =>
      have hc : candidate_gitbinary x sv path headRev tag = none := by
        simp [candidate_gitbinary, hp]
      simp only [hc, hp]
      exact ih ver
    | ok v =>
      cases hr : x.Run path (mergeBaseArgs tag.Revision headRev) with
      | some e =>
        have hc : candidate_gitbinary x sv path headRev tag = none := by
          simp [candidate_gitbinary, hp, hr]
        simp only [hc, hp, hr]
        exact ih ver
      | none =>
        have hc : candidate_gitbinary x sv path headRev tag = some v := by
          simp [candidate_gitbinary, hp, hr]
        simp only [hc, hp, hr, reduce_cons]
        exact ih (keepGreater sv ver v)

theorem tagLoop_gogit_fst {V : Type} (g : GoGitLib) (sv : Semver V) (repo : Repository)
    (headCommit : Commit) (iter : List (Except GoError Tag)) (ver : Option V) :
    (tagLoop_gogit g sv repo headCommit iter ver).1 =
      reduce sv ((iterTags iter).filterMap (candidate_gogit g sv repo headCommit)) ver := by
  induction iter generalizing ver with
  | nil => rfl
  | cons r iter ih =>
    cases r with
    | error e => rfl
    | ok tag =>
      rw [tagLoop_gogit, iterTags, List.filterMap_cons]
      cases hp : sv.NewVersion tag.Name with
      | error e =>
        have hc : candidate_gogit g sv repo headCommit tag = none := by
          simp [candidate_gogit, hp]
        simp only [hc, hp]
        exact ih ver
      | ok v =>
        cases hco : repo.CommitObject tag.Target with
        | error e =>
          have hc : candidate_gogit g sv repo headCommit tag = none := by
            simp [candidate_gogit, hp, hco]
          simp only [hc, hp, hco]
          exact ih ver
        | ok tagCommit =>
          rcases ha : g.IsAncestor tagCommit headCommit with ⟨b, e⟩
          cases e with
          | some e =>
            have hc : candidate_gogit g sv repo headCommit tag = none := by
              simp [candidate_gogit, hp, hco, ha]
            simp only [hc, hp, hco, ha]
            exact ih ver
          | none =>
            cases b with
            | false =>
              have hc : candidate_gogit g sv repo headCommit tag = none := by
                simp [candidate_gogit, hp, hco, ha]
              simp only [hc, hp, hco, ha]
              exact ih ver
            | true =>
              have hc : candidate_gogit g sv repo headCommit tag = some v := by
                simp [candidate_gogit, hp, hco, ha]
              simp only [hc, hp, hco, ha, reduce_cons]
              exact ih (keepGreater sv ver v)

theorem tagLoop_gogit_err {V : Type} (g : GoGitLib) (sv : Semver V) (repo : Repository)
    (headCommit : Commit) (iter : List (Except GoError Tag)) (ver : Option V) :
    (tagLoop_gogit g sv repo headCommit iter ver).2.1 = iterEnd iter := by
  induction iter generalizing ver with
  | nil => rfl
  | cons r iter ih =>
    cases r with
    | error e => rfl
    | ok tag =>
      rw [tagLoop_gogit, iterEnd]
      cases hp : sv.NewVersion tag.Name with
      | error e =>
        simp only [hp]
        exact ih ver
      | ok v =>
        cases hco : repo.CommitObject tag.Target with
        | error e =>
          simp only [hp, hco]
          exact ih ver
        | ok tagCommit =>
          rcases ha : g.IsAncestor tagCommit headCommit with ⟨b, e⟩
          cases e with
          | some e =>
            simp only [hp, hco, ha]
            exact ih ver
          | none =>
            cases b with
            | false =>
              simp only [hp, hco, ha]
              exact ih ver
            | true =>
              simp only [hp, hco, ha]
              exact ih (keepGreater sv ver v)

/-- The result of `latestTag_gitbinary` once the lookup, `rev-parse` and `show-ref`
have succeeded. -/
theorem gitbinary_result {V : Type} (x : Exec) (sv : Semver V) (path : String)
    (hlook : x.LookPath "git" = none)
    (hrev : (x.CombinedOutput path revParseArgs).2 = none)
    (hshow : (x.CombinedOutput path showRefArgs).2 = none) :
    (latestTag_gitbinary x sv path).1 =
      match reduce sv ((enumerated_gitbinary x path).filterMap
          (candidate_gitbinary x sv path (headRev_gitbinary x path))) none with
      | some ver => (sv.String ver, none)
      | none => ("", some noMatch_gitbinary) := by
  unfold latestTag_gitbinary
  rw [hlook]
  rcases h1 : x.CombinedOutput path revParseArgs with ⟨o1, e1⟩
  rw [h1] at hrev
  simp only at hrev
  subst hrev
  rcases h2 : x.CombinedOutput path showRefArgs with ⟨o2, e2⟩
  rw [h2] at hshow
  simp only at hshow
  subst hshow
  simp only [tagLoop_gitbinary_fst, enumerated_gitbinary, headRev_gitbinary, h1, h2]
  cases reduce sv ((showRefTags o2).filterMap
      (candidate_gitbinary x sv path (TrimSpace o1))) none <;> rfl

/-- A result without error comes only from the last statement of
`latestTag_gitbinary`: all three preliminary steps succeeded. -/
theorem gitbinary_ok_pre {V : Type} (x : Exec) (sv : Semver V) (path : String)
    (h : (latestTag_gitbinary x sv path).1.2 = none) :
    x.LookPath "git" = none ∧ (x.CombinedOutput path revParseArgs).2 = none ∧
      (x.CombinedOutput path showRefArgs).2 = none := by
  unfold latestTag_gitbinary at h
  cases hl : x.LookPath "git" with
  | some e => simp [hl] at h
  | none =>
    rcases h1 : x.CombinedOutput path revParseArgs with ⟨o1, e1⟩
    cases e1 with
    | some e => simp [hl, h1] at h
    | none =>
      rcases h2 : x.CombinedOutput path showRefArgs with ⟨o2, e2⟩
      cases e2 with
      | some e => simp [hl, h1, h2] at h
      | none => simp

/-- The result of `latestTag_gogit` once the repository is open, HEAD is resolved and
the tag iterator is obtained: the reduction over the tags handed out before the
iterator's first error, whatever that error is. -/
theorem gogit_result {V : Type} (g : GoGitLib) (sv : Semver V) (path : String)
    (repo : Repository) (head : String) (headCommit : Commit)
    (iter : List (Except GoError Tag))
    (hopen : g.PlainOpen path = .ok repo) (hhead : repo.Head = .ok head)
    (hcommit : repo.CommitObject head = .ok headCommit)
    (htags : repo.TagObjects = .ok iter) :
    (latestTag_gogit g sv path).1 =
      match reduce sv ((iterTags iter).filterMap
          (candidate_gogit g sv repo headCommit)) none with
      | none => ("", some noMatch_gogit)
      | some ver => (sv.String ver, none) := by
  unfold latestTag_gogit
  simp only [hopen, hhead, hcommit, htags, tagLoop_gogit_fst, afterLoop_gogit]
  cases reduce sv ((iterTags iter).filterMap
    (candidate_gogit g sv repo headCommit)) none <;> rfl

/-- A result without error comes only from the last statement of `latestTag_gogit`:
every preliminary step succeeded. -/
theorem gogit_ok_pre {V : Type} (g : GoGitLib) (sv : Semver V) (path : String)
    (h : (latestTag_gogit g sv path).1.2 = none) :
    ∃ repo head headCommit iter, g.PlainOpen path = .ok repo ∧ repo.Head = .ok head ∧
      repo.CommitObject head = .ok headCommit ∧ repo.TagObjects = .ok iter := by
  unfold latestTag_gogit at h
  cases ho : g.PlainOpen path with
  | error e => simp [ho] at h
  | ok repo =>
    cases hh : repo.Head with
    | error e => simp [ho, hh] at h
    | ok head =>
      cases hc : repo.CommitObject head with
      | error e => simp [ho, hh, hc] at h
      | ok headCommit =>
        cases ht : repo.TagObjects with
        | error e => simp [ho, hh, hc, ht] at h
        | ok iter => exact ⟨repo, head, headCommit, iter, rfl, hh, hc, ht⟩

/-! ## The concrete capability is a strict order; what survives; success -/

theorem lexLt_irrefl (l : List Nat) : lexLt l l = false := by
  induction l with
  | nil => rfl
  | cons a l ih => simp [lexLt, ih]

theorem lexLt_trans (a b c : List Nat) (hab : lexLt a b = true) (hbc : lexLt b c = true) :
    lexLt a c = true := by
  induction a generalizing b c with
  | nil =>
    cases b with
    | nil => simp [lexLt] at hab
    | cons y b =>
      cases c with
      | nil => simp [lexLt] at hbc
      | cons z c => simp [lexLt]
  | cons x a ih =>
    cases b with
    | nil => simp [lexLt] at hab
    | cons y b =>
      cases c with
      | nil => simp [lexLt] at hbc
      | cons z c =>
        simp only [lexLt, Bool.or_eq_true, decide_eq_true_eq, Bool.and_eq_true, beq_iff_eq] at hab hbc ⊢
        rcases hab with h1 | ⟨h1, h1r⟩
        · rcases hbc with h2 | ⟨h2, _⟩
          · exact Or.inl (by omega)
          · exact Or.inl (by omega)
        · rcases hbc with h2 | ⟨h2, h2r⟩
          · exact Or.inl (by omega)
          · exact Or.inr ⟨by omega, ih b c h1r h2r⟩

theorem semver_irrefl (a : SemVersion) : semver.GreaterThan a a = false :=
  lexLt_irrefl a.key

theorem semver_trans (a b c : SemVersion) (hab : semver.GreaterThan a b = true)
    (hbc : semver.GreaterThan b c = true) : semver.GreaterThan a c = true :=
  lexLt_trans c.key b.key a.key hbc hab

theorem candidate_gitbinary_some {V : Type} (x : Exec) (sv : Semver V) (path headRev : String)
    (tag : RefTag) (v : V) :
    candidate_gitbinary x sv path headRev tag = some v ↔
      sv.NewVersion tag.Name = .ok v ∧
        x.Run path (mergeBaseArgs tag.Revision headRev) = none := by
  unfold candidate_gitbinary
  cases hp : sv.NewVersion tag.Name with
  | error e => simp
  | ok w =>
    cases hr : x.Run path (mergeBaseArgs tag.Revision headRev) with
    | some e => simp
    | none => simp

theorem candidate_gogit_some {V : Type} (g : GoGitLib) (sv : Semver V) (repo : Repository)
    (headCommit : Commit) (tag : Tag) (v : V) :
    candidate_gogit g sv repo headCommit tag = some v ↔
      sv.NewVersion tag.Name = .ok v ∧
        ∃ tagCommit, repo.CommitObject tag.Target = .ok tagCommit ∧
          g.IsAncestor tagCommit headCommit = (true, none) := by
  unfold candidate_gogit
  cases hp : sv.NewVersion tag.Name with
  | error e => simp
  | ok w =>
    cases hco : repo.CommitObject tag.Target with
    | error e => simp
    | ok tagCommit =>
      rcases ha : g.IsAncestor tagCommit headCommit with ⟨b, e⟩
      cases e with
      | some e => simp [ha]
      | none => cases b <;> simp [ha]

theorem gitbinary_ok {V : Type} (x : Exec) (sv : Semver V) (path s : String)
    (h : (latestTag_gitbinary x sv path).1 = (s, none)) :
    ∃ v, reduce sv ((enumerated_gitbinary x path).filterMap
        (candidate_gitbinary x sv path (headRev_gitbinary x path))) none = some v ∧
      s = sv.String v := by
  obtain ⟨hl, hr, hs⟩ := gitbinary_ok_pre x sv path (by rw [h])
  rw [gitbinary_result x sv path hl hr hs] at h
  cases hred : reduce sv ((enumerated_gitbinary x path).filterMap
      (candidate_gitbinary x sv path (headRev_gitbinary x path))) none with
  | none => simp [hred] at h
  | some v =>
    simp [hred] at h
    exact ⟨v, rfl, h.symm⟩

theorem gogit_ok {V : Type} (g : GoGitLib) (sv : Semver V) (path s : String)
    (repo : Repository) (head : String) (headCommit : Commit)
    (iter : List (Except GoError Tag))
    (hopen : g.PlainOpen path = .ok repo) (hhead : repo.Head = .ok head)
    (hcommit : repo.CommitObject head = .ok headCommit)
    (htags : repo.TagObjects = .ok iter)
    (h : (latestTag_gogit g sv path).1 = (s, none)) :
    ∃ v, reduce sv ((iterTags iter).filterMap
        (candidate_gogit g sv repo headCommit)) none = some v ∧ s = sv.String v := by
  rw [gogit_result g sv path repo head headCommit iter hopen hhead hcommit htags] at h
  cases hred : reduce sv ((iterTags iter).filterMap
      (candidate_gogit g sv repo headCommit)) none with
  | none => simp [hred] at h
  | some v =>
    simp [hred] at h
    exact ⟨v, rfl, h.symm⟩

/-- The result pair of `latestTag_gitbinary`, by the step at which it returns. -/
theorem gitbinary_fst {V : Type} (x : Exec) (sv : Semver V) (path : String) :
    (latestTag_gitbinary x sv path).1 =
      match x.LookPath "git" with
      | some err => ("", some (Errorf_v "find git binary: " err))
      | none =>
        match (x.CombinedOutput path revParseArgs).2 with
        | some err => ("", some (Errorf_v "cmd git rev-parse: " err))
        | none =>
          match (x.CombinedOutput path showRefArgs).2 with
          | some err => ("", some (Errorf_v "cmd git show-ref: " err))
          | none =>
            match reduce sv ((enumerated_gitbinary x path).filterMap
                (candidate_gitbinary x sv path (headRev_gitbinary x path))) none with
            | some ver => (sv.String ver, none)
            | none => ("", some noMatch_gitbinary) := by
  cases hl : x.LookPath "git" with
  | some e => simp [latestTag_gitbinary, hl]
  | none =>
    rcases h1 : x.CombinedOutput path revParseArgs with ⟨o1, e1⟩
    cases e1 with
    | some e => simp [latestTag_gitbinary, hl, h1]
    | none =>
      rcases h2 : x.CombinedOutput path showRefArgs with ⟨o2, e2⟩
      cases e2 with
      | some e => simp [latestTag_gitbinary, hl, h1, h2]
      | none =>
        have := gitbinary_result x sv path hl (by rw [h1]) (by rw [h2])
        rw [this]

/-- The result pair of `latestTag_gogit`, by the step at which it returns. -/
theorem gogit_fst {V : Type} (g : GoGitLib) (sv : Semver V) (path : String) :
    (latestTag_gogit g sv path).1 =
      match g.PlainOpen path with
      | .error err => ("", some (Errorf_w "open git repo: " err))
      | .ok repo =>
        match repo.Head with
        | .error err => ("", some (Errorf_v "get HEAD ref: " err))
        | .ok head =>
          match repo.CommitObject head with
          | .error err => ("", some (Errorf_v "get HEAD commit: " err))
          | .ok headCommit =>
            match repo.TagObjects with
            | .error err => ("", some (Errorf_w "get tag objects: " err))
            | .ok iter =>
              match reduce sv ((iterTags iter).filterMap
                  (candidate_gogit g sv repo headCommit)) none with
              | none => ("", some noMatch_gogit)
              | some ver => (sv.String ver, none) := by
  cases ho : g.PlainOpen path with
  | error e => simp [latestTag_gogit, ho]
  | ok repo =>
    cases hh : repo.Head with
    | error e => simp [latestTag_gogit, ho, hh]
    | ok head =>
      cases hc : repo.CommitObject head with
      | error e => simp [latestTag_gogit, ho, hh, hc]
      | ok headCommit =>
        cases ht : repo.TagObjects with
        | error e => simp [latestTag_gogit, ho, hh, hc, ht]
        | ok iter =>
          have := gogit_result g sv path repo head headCommit iter ho hh hc ht
          rw [this]
          simp only [hh, hc, ht]

theorem withShowRef_revParse (x : Exec) (out path : String) :
    (x.withShowRef out).CombinedOutput path revParseArgs =
      x.CombinedOutput path revParseArgs := by
  simp [Exec.withShowRef, revParseArgs, showRefArgs]

theorem withShowRef_showRef (x : Exec) (out path : String) :
    (x.withShowRef out).CombinedOutput path showRefArgs = (out, none) := by
  simp [Exec.withShowRef]

theorem withShowRef_run (x : Exec) (out path revision headRev : String) :
    (x.withShowRef out).Run path (mergeBaseArgs revision headRev) =
      x.Run path (mergeBaseArgs revision headRev) := by
  simp [Exec.withShowRef, Exec.Run, mergeBaseArgs, showRefArgs]

theorem withShowRef_candidate {V : Type} (x : Exec) (sv : Semver V)
    (out path headRev : String) :
    candidate_gitbinary (x.withShowRef out) sv path headRev =
      candidate_gitbinary x sv path headRev := by
  funext tag
  simp only [candidate_gitbinary, withShowRef_run]

/-- The result pair of `latestTag_gitbinary` when the tag listing is `out`. -/
theorem withShowRef_fst {V : Type} (x : Exec) (sv : Semver V) (out path : String) :
    (latestTag_gitbinary (x.withShowRef out) sv path).1 =
      match x.LookPath "git" with
      | some err => ("", some (Errorf_v "find git binary: " err))
      | none =>
        match (x.CombinedOutput path revParseArgs).2 with
        | some err => ("", some (Errorf_v "cmd git rev-parse: " err))
        | none =>
          match reduce sv ((showRefTags out).filterMap
              (candidate_gitbinary x sv path (headRev_gitbinary x path))) none with
          | some ver => (sv.String ver, none)
          | none => ("", some noMatch_gitbinary) := by
  rw [gitbinary_fst]
  simp only [withShowRef_showRef, withShowRef_revParse, enumerated_gitbinary,
    headRev_gitbinary, withShowRef_candidate]
  rfl

/-- A tag that does not survive can be inserted anywhere in the listing without
changing the result of `latestTag_gitbinary`. -/
theorem gitbinary_insert {V : Type} (x : Exec) (sv : Semver V) (path out1 out2 : String)
    (pre post : List RefTag) (tag : RefTag)
    (h1 : showRefTags out1 = pre ++ post) (h2 : showRefTags out2 = pre ++ tag :: post)
    (hc : x.LookPath "git" = none → (x.CombinedOutput path revParseArgs).2 = none →
      candidate_gitbinary x sv path (headRev_gitbinary x path) tag = none) :
    (latestTag_gitbinary (x.withShowRef out2) sv path).1 =
      (latestTag_gitbinary (x.withShowRef out1) sv path).1 := by
  rw [withShowRef_fst, withShowRef_fst, h1, h2]
  cases hl : x.LookPath "git" with
  | some e => rfl
  | none =>
    cases hr : (x.CombinedOutput path revParseArgs).2 with
    | some e => rfl
    | none =>
      have := hc hl hr
      simp [List.filterMap_append, List.filterMap_cons, this]

theorem iterTags_insert {V : Type} (cand : Tag → Option V)
    (pre post : List (Except GoError Tag)) (tag : Tag) (hc : cand tag = none) :
    (iterTags (pre ++ .ok tag :: post)).filterMap cand =
      (iterTags (pre ++ post)).filterMap cand := by
  induction pre with
  | nil => simp [iterTags, List.filterMap_cons, hc]
  | cons r pre ih =>
    cases r with
    | error e => simp [iterTags]
    | ok t =>
      have h : (Except.ok t :: pre) ++ Except.ok tag :: post =
          Except.ok t :: (pre ++ Except.ok tag :: post) := rfl
      have h2 : (Except.ok t :: pre) ++ post =
          (Except.ok t :: (pre ++ post) : List (Except GoError Tag)) := rfl
      rw [h, h2, iterTags, iterTags, List.filterMap_cons, List.filterMap_cons, ih]

theorem iterEnd_insert (pre post : List (Except GoError Tag)) (tag : Tag) :
    iterEnd (pre ++ .ok tag :: post) = iterEnd (pre ++ post) := by
  induction pre with
  | nil => simp [iterEnd]
  | cons r pre ih =>
    cases r with
    | error e => simp [iterEnd]
    | ok t =>
      have h : (Except.ok t :: pre) ++ Except.ok tag :: post =
          Except.ok t :: (pre ++ Except.ok tag :: post) := rfl
      have h2 : (Except.ok t :: pre) ++ post =
          (Except.ok t :: (pre ++ post) : List (Except GoError Tag)) := rfl
      rw [h, h2, iterEnd, iterEnd, ih]

/-- The result pair of `latestTag_gogit` when the tag iterator is `iter`. -/
theorem withTagObjects_fst {V : Type} (g : GoGitLib) (sv : Semver V)
    (iter : List (Except GoError Tag)) (path : String) :
    (latestTag_gogit (g.withTagObjects iter) sv path).1 =
      match g.PlainOpen path with
      | .error err => ("", some (Errorf_w "open git repo: " err))
      | .ok repo =>
        match repo.Head with
        | .error err => ("", some (Errorf_v "get HEAD ref: " err))
        | .ok head =>
          match repo.CommitObject head with
          | .error err => ("", some (Errorf_v "get HEAD commit: " err))
          | .ok headCommit =>
            match reduce sv ((iterTags iter).filterMap
                (candidate_gogit g sv repo headCommit)) none with
            | none => ("", some noMatch_gogit)
            | some ver => (sv.String ver, none) := by
  rw [gogit_fst]
  cases ho : g.PlainOpen path with
  | error e => simp [GoGitLib.withTagObjects, ho]
  | ok repo =>
    simp only [GoGitLib.withTagObjects, ho]
    cases hh : repo.Head with
    | error e => rfl
    | ok head =>
      cases hc : repo.CommitObject head with
      | error e => rfl
      | ok headCommit => rfl

/-- A tag that does not survive can be inserted anywhere in the iteration without
changing the result of `latestTag_gogit`. -/
theorem gogit_insert {V : Type} (g : GoGitLib) (sv : Semver V) (path : String)
    (pre post : List (Except GoError Tag)) (tag : Tag)
    (hc : ∀ repo head headCommit, g.PlainOpen path = .ok repo → repo.Head = .ok head →
      repo.CommitObject head = .ok headCommit →
      candidate_gogit g sv repo headCommit tag = none) :
    (latestTag_gogit (g.withTagObjects (pre ++ .ok tag :: post)) sv path).1 =
      (latestTag_gogit (g.withTagObjects (pre ++ post)) sv path).1 := by
  rw [withTagObjects_fst, withTagObjects_fst]
  cases ho : g.PlainOpen path with
  | error e => rfl
  | ok repo =>
    cases hh : repo.Head with
    | error e => simp only [hh]
    | ok head =>
      cases hco : repo.CommitObject head with
      | error e => simp only [hh, hco]
      | ok headCommit =>
        simp only [hh, hco,
          iterTags_insert _ pre post tag (hc repo head headCommit ho hh hco)]

theorem reduce_keep {V : Type} (sv : Semver V) (post : List V) (v : V)
    (h : ∀ u ∈ post, sv.GreaterThan u v = false) : reduce sv post (some v) = some v := by
  induction post with
  | nil => rfl
  | cons u post ih =>
    have hu : sv.GreaterThan u v = false := h u (by simp)
    rw [reduce_cons]
    simp only [keepGreater, hu]
    exact ih (fun w hw => h w (List.mem_cons_of_mem _ hw))

/-- The reduction returns the first version that is above all before it and not
below any after it. -/
theorem reduce_first {V : Type} (sv : Semver V) (pre post : List V) (v : V)
    (hpre : ∀ u ∈ pre, sv.GreaterThan v u = true)
    (hpost : ∀ u ∈ post, sv.GreaterThan u v = false) :
    reduce sv (pre ++ v :: post) none = some v := by
  rw [reduce_append, reduce_cons]
  have hk : keepGreater sv (reduce sv pre none) v = some v := by
    cases hr : reduce sv pre none with
    | none => rfl
    | some u =>
      rcases reduce_mem sv pre none u hr with hm | hm
      · simp [keepGreater, hpre u hm]
      · cases hm
  rw [hk]
  exact reduce_keep sv post v hpost

theorem iterEnd_map_ok_error (pre : List Tag) (err : GoError)
    (rest : List (Except GoError Tag)) :
    iterEnd (pre.map Except.ok ++ .error err :: rest) = err := by
  induction pre with
  | nil => rfl
  | cons t pre ih => simpa [iterEnd] using ih

theorem iterTags_map_ok (tags : List Tag) : iterTags (tags.map Except.ok) = tags := by
  induction tags with
  | nil => rfl
  | cons t tags ih => simp [iterTags, ih]

theorem iterEnd_map_ok (tags : List Tag) : iterEnd (tags.map Except.ok) = GoError.EOF := by
  induction tags with
  | nil => rfl
  | cons t tags ih => simpa [iterEnd] using ih

theorem errorf_v_ne_noMatch_gitbinary (err : GoError) :
    Errorf_v "find git binary: " err ≠ noMatch_gitbinary ∧
    Errorf_v "cmd git rev-parse: " err ≠ noMatch_gitbinary ∧
    Errorf_v "cmd git show-ref: " err ≠ noMatch_gitbinary := by
  refine ⟨?_, ?_, ?_⟩ <;>
  · intro h
    have h2 := congrArg (fun e => (GoError.Error e).data.head?) h
    revert h2
    simp [Errorf_v, noMatch_gitbinary, GoError.Error, String.data_append]

theorem errorf_v_ne_noMatch_gogit (err : GoError) :
    Errorf_v "get HEAD ref: " err ≠ noMatch_gogit ∧
    Errorf_v "get HEAD commit: " err ≠ noMatch_gogit := by
  refine ⟨?_, ?_⟩ <;>
  · intro h
    have h2 := congrArg (fun e => (GoError.Error e).data.head?) h
    revert h2
    simp [Errorf_v, noMatch_gogit, GoError.Error, String.data_append]

/-! ## Lemmas on `strings.Split` and on the tag listing -/

theorem splitAux_single_cons (c : Char) (s t cur : List Char) (hs : c ∉ s) :
    splitAux [c] (s ++ c :: t) cur 0 = (cur.reverse ++ s) :: splitAux [c] t [] 0 := by
  induction s generalizing cur with
  | nil => simp [splitAux]
  | cons d s ih =>
    have hd : c ≠ d := fun h => hs (by simp [h])
    have hs2 : c ∉ s := fun h => hs (List.mem_cons_of_mem _ h)
    have hp : List.isPrefixOf [c] (d :: (s ++ c :: t)) = false := by
      simp [List.isPrefixOf, hd]
    show splitAux [c] (d :: (s ++ c :: t)) cur 0 = _
    rw [splitAux, hp, ih (d :: cur) hs2]
    simp

theorem splitAux_single_none (c : Char) (s cur : List Char) (hs : c ∉ s) :
    splitAux [c] s cur 0 = [cur.reverse ++ s] := by
  induction s generalizing cur with
  | nil => simp [splitAux]
  | cons d s ih =>
    have hd : c ≠ d := fun h => hs (by simp [h])
    have hs2 : c ∉ s := fun h => hs (List.mem_cons_of_mem _ h)
    have hp : List.isPrefixOf [c] (d :: s) = false := by
      simp [List.isPrefixOf, hd]
    rw [splitAux, hp, ih (d :: cur) hs2]
    simp

/-- Splitting at newlines: a newline-free beginning up to the first newline is the
first line. -/
theorem Split_newline_cons (s t : String) (hs : '\n' ∉ s.data) :
    Split (s ++ "\n" ++ t) "\n" = s :: Split t "\n" := by
  have h : (s ++ "\n" ++ t).data = s.data ++ '\n' :: t.data := by
    simp [String.data_append]
  have hsep : ("\n" : String).data = ['\n'] := rfl
  simp only [Split, h, hsep, splitAux_single_cons '\n' s.data t.data [] hs]
  simp

/-- Splitting at blanks: a blank-free beginning up to the first blank is the first
field. -/
theorem Split_blank_cons (s t : String) (hs : ' ' ∉ s.data) :
    Split (s ++ " " ++ t) " " = s :: Split t " " := by
  have h : (s ++ " " ++ t).data = s.data ++ ' ' :: t.data := by
    simp [String.data_append]
  have hsep : (" " : String).data = [' '] := rfl
  simp only [Split, h, hsep, splitAux_single_cons ' ' s.data t.data [] hs]
  simp

theorem Split_blank_none (s : String) (hs : ' ' ∉ s.data) : Split s " " = [s] := by
  have hsep : (" " : String).data = [' '] := rfl
  simp only [Split, hsep, splitAux_single_none ' ' s.data [] hs]
  simp

theorem HasSuffix_append (s t : String) : HasSuffix (s ++ t) t = true := by
  simp [HasSuffix, String.data_append]

theorem TrimPrefix_append (p s : String) : TrimPrefix (p ++ s) p = s := by
  have h : HasPrefix (p ++ s) p = true := by simp [HasPrefix, String.data_append]
  simp only [TrimPrefix, h, if_true]
  apply String.ext
  simp [String.data_append]

theorem TrimSuffix_append (s t : String) : TrimSuffix (s ++ t) t = s := by
  simp only [TrimSuffix, HasSuffix_append, if_true]
  apply String.ext
  simp [String.data_append]

/-- The first loop of `latestTag_gitbinary` appends, in order, the pair of every
counted line. -/
theorem showRefLoop_eq (refs : List String) (tags : List RefTag) :
    showRefLoop refs tags = tags ++ (refs.filter dereferencedLine).map linePair := by
  induction refs generalizing tags with
  | nil => simp [showRefLoop]
  | cons ref refs ih =>
    rw [showRefLoop]
    by_cases hm : HasSuffix ref "^\x7b\x7d" = true
    · simp only [hm, Bool.not_true, Bool.false_eq_true, if_false]
      rcases hsp : Split ref " " with _ | ⟨revision, _ | ⟨elem1, rest⟩⟩
      · have hd : dereferencedLine ref = false := by simp [dereferencedLine, hsp]
        simp only [List.filter_cons, hd, Bool.false_eq_true, if_false]
        exact ih tags
      · have hd : dereferencedLine ref = false := by simp [dereferencedLine, hsp]
        simp only [List.filter_cons, hd, Bool.false_eq_true, if_false]
        exact ih tags
      · have hd : dereferencedLine ref = true := by simp [dereferencedLine, hsp, hm]
        have hp : linePair ref =
            { Name := TrimSuffix (TrimPrefix elem1 "refs/tags/") "^\x7b\x7d",
              Revision := revision } := by
          simp [linePair, hsp]
        simp only [List.filter_cons, hd, if_true, List.map_cons, hp]
        rw [ih]
        simp
    · have hd : dereferencedLine ref = false := by simp [dereferencedLine, hm]
      simp only [hm, Bool.not_false, if_true, List.filter_cons, hd, Bool.false_eq_true,
        if_false]
      exact ih tags

theorem derefLine_shape (commit name : String) :
    commit ++ " refs/tags/" ++ name ++ "^\x7b\x7d" =
      commit ++ " " ++ ("refs/tags/" ++ (name ++ "^\x7b\x7d")) := by
  apply String.ext
  simp [String.data_append]

theorem derefLine_fields (commit name : String) (hc : ' ' ∉ commit.data)
    (hn : ' ' ∉ name.data) :
    Split (commit ++ " refs/tags/" ++ name ++ "^\x7b\x7d") " " =
      [commit, "refs/tags/" ++ (name ++ "^\x7b\x7d")] := by
  rw [derefLine_shape, Split_blank_cons _ _ hc, Split_blank_none]
  simp [String.data_append, hn]

theorem derefLine_counted (commit name : String) (hc : ' ' ∉ commit.data)
    (hn : ' ' ∉ name.data) :
    dereferencedLine (commit ++ " refs/tags/" ++ name ++ "^\x7b\x7d") = true := by
  simp [dereferencedLine, HasSuffix_append, derefLine_fields commit name hc hn]

theorem derefLine_pair (commit name : String) (hc : ' ' ∉ commit.data)
    (hn : ' ' ∉ name.data) :
    linePair (commit ++ " refs/tags/" ++ name ++ "^\x7b\x7d") =
      { Name := name, Revision := commit } := by
  simp [linePair, derefLine_fields commit name hc hn, TrimPrefix_append, TrimSuffix_append]

theorem showRefTags_eq (out : String) :
    showRefTags out = ((Split out "\n").filter dereferencedLine).map linePair := by
  simp [showRefTags, showRefLoop_eq]

theorem showRefTags_line (line rest : String) (hl : '\n' ∉ line.data) :
    showRefTags (line ++ "\n" ++ rest) =
      (if dereferencedLine line then [linePair line] else []) ++ showRefTags rest := by
  rw [showRefTags_eq, showRefTags_eq, Split_newline_cons _ _ hl, List.filter_cons]
  by_cases hd : dereferencedLine line = true <;> simp [hd]

/-! ## The two backends on one repository state -/

theorem plainField_blank (s : String) (h : plainField s = true) : ' ' ∉ s.data := by
  intro hm
  have := (List.all_eq_true.mp h) ' ' hm
  revert this
  decide

theorem plainField_newline (s : String) (h : plainField s = true) : '\n' ∉ s.data := by
  intro hm
  have := (List.all_eq_true.mp h) '\n' hm
  revert this
  decide

theorem dropWhile_all_false {α : Type} (p : α → Bool) (l : List α)
    (h : ∀ a ∈ l, p a = false) : l.dropWhile p = l := by
  cases l with
  | nil => rfl
  | cons a l => simp [List.dropWhile, h a (by simp)]

theorem TrimSpace_line (s : String) (h : plainField s = true) :
    TrimSpace (s ++ "\n") = s := by
  have hall : ∀ c ∈ s.data, isSpace c = false := by
    intro c hc
    simpa using (List.all_eq_true.mp h) c hc
  have hrev : ∀ c ∈ s.data.reverse, isSpace c = false := by
    intro c hc
    exact hall c (List.mem_reverse.mp hc)
  apply String.ext
  have hd : (s ++ "\n").data = s.data ++ ['\n'] := by simp [String.data_append]
  simp only [TrimSpace, hd]
  cases hs : s.data with
  | nil => decide
  | cons c r =>
    have hc : isSpace c = false := hall c (by simp [hs])
    have h1 : (c :: r ++ ['\n']).dropWhile isSpace = c :: r ++ ['\n'] := by
      simp [List.dropWhile, hc]
    have hn : isSpace '\n' = true := by decide
    rw [h1, List.reverse_append]
    simp only [List.reverse_cons, List.reverse_nil, List.nil_append, List.singleton_append,
      List.dropWhile, hn]
    rw [hs] at hrev
    have hrev2 : ∀ x ∈ r.reverse ++ [c], isSpace x = false := by
      intro x hx
      exact hrev x (by simpa using hx)
    show (List.dropWhile isSpace (r.reverse ++ [c])).reverse = c :: r
    rw [dropWhile_all_false isSpace _ hrev2]
    simp

theorem plainLine_no_marker (hash name : String)
    (h : HasSuffix name "^\x7b\x7d" = false) :
    HasSuffix (hash ++ " refs/tags/" ++ name) "^\x7b\x7d" = false := by
  have hm : ("^\x7b\x7d" : String).data.reverse = ['\x7d', '\x7b', '^'] := by decide
  simp only [HasSuffix, List.isSuffixOf, hm, String.data_append, List.reverse_append] at h ⊢
  have hp : (" refs/tags/" : String).data.reverse =
      ['/', 's', 'g', 'a', 't', '/', 's', 'f', 'e', 'r', ' '] := by decide
  rw [hp]
  generalize name.data.reverse = nr at h ⊢
  rcases nr with _ | ⟨a, _ | ⟨b, _ | ⟨c, r⟩⟩⟩
  · simp [List.isPrefixOf]
  · simp [List.isPrefixOf]
  · simp [List.isPrefixOf]
  · simpa [List.isPrefixOf] using h

theorem showRefTags_lines (t : Tag) (rest : String) (h : wellFormedTag t = true) :
    showRefTags (showRefLines t ++ rest) = refTagOf t :: showRefTags rest := by
  simp only [wellFormedTag, Bool.and_eq_true, Bool.not_eq_true'] at h
  obtain ⟨⟨⟨hh, hn⟩, ht⟩, hm⟩ := h
  have hshape : showRefLines t ++ rest =
      (t.Hash ++ " refs/tags/" ++ t.Name) ++ "\n" ++
        ((t.Target ++ " refs/tags/" ++ t.Name ++ "^\x7b\x7d") ++ "\n" ++ rest) := by
    apply String.ext
    simp [showRefLines, String.data_append]
  have hl1 : '\n' ∉ (t.Hash ++ " refs/tags/" ++ t.Name).data := by
    simp [String.data_append, plainField_newline _ hh, plainField_newline _ hn]
  have hl2 : '\n' ∉ (t.Target ++ " refs/tags/" ++ t.Name ++ "^\x7b\x7d").data := by
    simp [String.data_append, plainField_newline _ ht, plainField_newline _ hn]
  have hd1 : dereferencedLine (t.Hash ++ " refs/tags/" ++ t.Name) = false := by
    simp [dereferencedLine, plainLine_no_marker t.Hash t.Name hm]
  rw [hshape, showRefTags_line _ _ hl1, hd1, showRefTags_line _ _ hl2,
    derefLine_counted _ _ (plainField_blank _ ht) (plainField_blank _ hn),
    derefLine_pair _ _ (plainField_blank _ ht) (plainField_blank _ hn)]
  rfl

/-- Parsing the listing of well-formed tags gives back, in order, the name and the
dereferenced commit of every tag. -/
theorem showRefTags_listing (tags : List Tag) (h : tags.all wellFormedTag = true) :
    showRefTags (showRefListing tags) = tags.map refTagOf := by
  induction tags with
  | nil => decide
  | cons t tags ih =>
    simp only [List.all_cons, Bool.and_eq_true] at h
    rw [showRefListing, showRefTags_lines t _ h.1, ih h.2, List.map_cons]

theorem gitExec_run (st : RepoState) (path revision headRev : String) :
    (gitExec st).Run path (mergeBaseArgs revision headRev) =
      if st.ancestor revision headRev then none
      else some (GoError.errorString "exit status 1") := by
  simp only [Exec.Run, gitExec, mergeBaseArgs]
  by_cases h : st.ancestor revision headRev = true <;> simp [h]

theorem candidate_gitExec {V : Type} (sv : Semver V) (st : RepoState) (path headRev : String)
    (t : Tag) :
    candidate_gitbinary (gitExec st) sv path headRev (refTagOf t) =
      candidate_state sv headRev st.ancestor t := by
  simp only [candidate_gitbinary, candidate_state, refTagOf, gitExec_run]
  cases sv.NewVersion t.Name with
  | error e => rfl
  | ok v => by_cases h : st.ancestor t.Target headRev = true <;> simp [h]

theorem candidate_gogitLib {V : Type} (sv : Semver V) (st : RepoState) (head : String)
    (t : Tag) :
    candidate_gogit (gogitLib st) sv (gogitRepo st) { Hash := head } t =
      candidate_state sv head st.ancestor t := by
  simp only [candidate_gogit, candidate_state, gogitLib, gogitRepo]
  cases sv.NewVersion t.Name with
  | error e => rfl
  | ok v => by_cases h : st.ancestor t.Target head = true <;> simp [h]

/-- The result of `latestTag_gitbinary` on a well-formed repository state. -/
theorem gitExec_result {V : Type} (sv : Semver V) (st : RepoState) (path : String)
    (h : wellFormed st = true) :
    (latestTag_gitbinary (gitExec st) sv path).1 =
      match reduce sv (st.tags.filterMap (candidate_state sv st.head st.ancestor)) none with
      | some ver => (sv.String ver, none)
      | none => ("", some noMatch_gitbinary) := by
  simp only [wellFormed, Bool.and_eq_true] at h
  have hhead : headRev_gitbinary (gitExec st) path = st.head := TrimSpace_line st.head h.1
  have htags : enumerated_gitbinary (gitExec st) path = st.tags.map refTagOf :=
    showRefTags_listing st.tags h.2
  rw [gitbinary_result (gitExec st) sv path rfl rfl rfl, hhead, htags, List.filterMap_map]
  have hf : candidate_gitbinary (gitExec st) sv path st.head ∘ refTagOf =
      candidate_state sv st.head st.ancestor := by
    funext t
    exact candidate_gitExec sv st path st.head t
  rw [hf]

/-- The result of `latestTag_gogit` on a repository state. -/
theorem gogitLib_result {V : Type} (sv : Semver V) (st : RepoState) (path : String) :
    (latestTag_gogit (gogitLib st) sv path).1 =
      match reduce sv (st.tags.filterMap (candidate_state sv st.head st.ancestor)) none with
      | none => ("", some noMatch_gogit)
      | some ver => (sv.String ver, none) := by
  rw [gogit_result (gogitLib st) sv path (gogitRepo st) st.head { Hash := st.head }
    (st.tags.map Except.ok) rfl rfl rfl rfl, iterTags_map_ok]
  have hf : candidate_gogit (gogitLib st) sv (gogitRepo st) { Hash := st.head } =
      candidate_state sv st.head st.ancestor := by
    funext t
    exact candidate_gogitLib sv st st.head t
  rw [hf]

/-- Two enumerations of the same candidates reduce to versions that tie. -/
theorem reduce_perm {V : Type} (sv : Semver V)
    (hirr : ∀ a, sv.GreaterThan a a = false)
    (htrans : ∀ a b c, sv.GreaterThan a b = true → sv.GreaterThan b c = true →
      sv.GreaterThan a c = true)
    (c1 c2 : List V) (hperm : c1.Perm c2) :
    (reduce sv c1 none = none ∧ reduce sv c2 none = none) ∨
      ∃ m1 m2, reduce sv c1 none = some m1 ∧ reduce sv c2 none = some m2 ∧
        m1 ∈ c1 ∧ m2 ∈ c1 ∧
        sv.GreaterThan m1 m2 = false ∧ sv.GreaterThan m2 m1 = false := by
  cases h1 : reduce sv c1 none with
  | none =>
    have hnil := (reduce_eq_none sv c1).mp h1
    subst hnil
    have := hperm.symm.eq_nil
    subst this
    exact Or.inl ⟨rfl, rfl⟩
  | some m1 =>
    cases h2 : reduce sv c2 none with
    | none =>
      have hnil := (reduce_eq_none sv c2).mp h2
      subst hnil
      have := hperm.eq_nil
      subst this
      simp [reduce] at h1
    | some m2 =>
      have hm1 : m1 ∈ c1 := by
        rcases reduce_mem sv _ _ _ h1 with h | h
        · exact h
        · cases h
      have hm2 : m2 ∈ c2 := by
        rcases reduce_mem sv _ _ _ h2 with h | h
        · exact h
        · cases h
      refine Or.inr ⟨m1, m2, rfl, rfl, hm1, hperm.symm.subset hm2, ?_, ?_⟩
      · exact (reduce_max sv hirr htrans c2 none m2 h2).1 m1 (hperm.subset hm1)
      · exact (reduce_max sv hirr htrans c1 none m1 h1).1 m2 (hperm.symm.subset hm2)

/-! ## The claims -/

/-- C1 (maximality, both resolvers). With a comparator that is irreflexive and
transitive: whenever a resolver succeeds, the returned string is the canonical string
of a version `v` that an enumerated surviving tag carries, and no enumerated tag whose
name parses and whose target passes the ancestry test has a version strictly greater
than `v`. -/
theorem C1_maximality {V : Type} (sv : Semver V)
    (hirr : ∀ a, sv.GreaterThan a a = false)
    (htrans : ∀ a b c, sv.GreaterThan a b = true → sv.GreaterThan b c = true →
      sv.GreaterThan a c = true) :
    (∀ (x : Exec) (path s : String), (latestTag_gitbinary x sv path).1 = (s, none) →
      ∃ v, s = sv.String v ∧
        (∃ tag ∈ enumerated_gitbinary x path, sv.NewVersion tag.Name = .ok v ∧
          x.Run path (mergeBaseArgs tag.Revision (headRev_gitbinary x path)) = none) ∧
        ∀ tag ∈ enumerated_gitbinary x path, ∀ u, sv.NewVersion tag.Name = .ok u →
          x.Run path (mergeBaseArgs tag.Revision (headRev_gitbinary x path)) = none →
          sv.GreaterThan u v = false) ∧
    (∀ (g : GoGitLib) (path s : String) (repo : Repository) (head : String)
        (headCommit : Commit) (iter : List (Except GoError Tag)),
      g.PlainOpen path = .ok repo → repo.Head = .ok head →
      repo.CommitObject head = .ok headCommit → repo.TagObjects = .ok iter →
      (latestTag_gogit g sv path).1 = (s, none) →
      ∃ v, s = sv.String v ∧
        (∃ tag ∈ iterTags iter, sv.NewVersion tag.Name = .ok v ∧
          ∃ tagCommit, repo.CommitObject tag.Target = .ok tagCommit ∧
            g.IsAncestor tagCommit headCommit = (true, none)) ∧
        ∀ tag ∈ iterTags iter, ∀ u, sv.NewVersion tag.Name = .ok u →
          ∀ tagCommit, repo.CommitObject tag.Target = .ok tagCommit →
            g.IsAncestor tagCommit headCommit = (true, none) →
            sv.GreaterThan u v = false) := by
  constructor
  · intro x path s h
    obtain ⟨v, hv, hs⟩ := gitbinary_ok x sv path s h
    refine ⟨v, hs, ?_, ?_⟩
    · rcases reduce_mem sv _ _ _ hv with hm | hm
      · obtain ⟨tag, htag, hc⟩ := List.mem_filterMap.mp hm
        exact ⟨tag, htag, (candidate_gitbinary_some x sv path _ tag v).mp hc⟩
      · cases hm
    · intro tag htag u hp hr
      have hc := (candidate_gitbinary_some x sv path _ tag u).mpr ⟨hp, hr⟩
      exact (reduce_max sv hirr htrans _ _ _ hv).1 u
        (List.mem_filterMap.mpr ⟨tag, htag, hc⟩)
  · intro g path s repo head headCommit iter hopen hhead hcommit htags h
    obtain ⟨v, hv, hs⟩ :=
      gogit_ok g sv path s repo head headCommit iter hopen hhead hcommit htags h
    refine ⟨v, hs, ?_, ?_⟩
    · rcases reduce_mem sv _ _ _ hv with hm | hm
      · obtain ⟨tag, htag, hc⟩ := List.mem_filterMap.mp hm
        exact ⟨tag, htag, (candidate_gogit_some g sv repo headCommit tag v).mp hc⟩
      · cases hm
    · intro tag htag u hp tagCommit hco ha
      have hc := (candidate_gogit_some g sv repo headCommit tag u).mpr ⟨hp, tagCommit, hco, ha⟩
      exact (reduce_max sv hirr htrans _ _ _ hv).1 u
        (List.mem_filterMap.mpr ⟨tag, htag, hc⟩)

/-- Witness of C1: on the repository with tags "0.9.0", "1.0.0", "1.2.0-rc1" and
"2.0.0", all ancestors of HEAD, both resolvers return "2.0.0", and the theorem applies
to both runs. -/
theorem C1_maximality_witness :
    (latestTag_gitbinary (gitExec exampleMaximality) semver "/repo").1 = ("2.0.0", none) ∧
    (latestTag_gogit (gogitLib exampleMaximality) semver "/repo").1 = ("2.0.0", none) ∧
    (∃ v, "2.0.0" = semver.String v ∧
      (∃ tag ∈ enumerated_gitbinary (gitExec exampleMaximality) "/repo",
        semver.NewVersion tag.Name = .ok v ∧
        (gitExec exampleMaximality).Run "/repo" (mergeBaseArgs tag.Revision
          (headRev_gitbinary (gitExec exampleMaximality) "/repo")) = none) ∧
      ∀ tag ∈ enumerated_gitbinary (gitExec exampleMaximality) "/repo", ∀ u,
        semver.NewVersion tag.Name = .ok u →
        (gitExec exampleMaximality).Run "/repo" (mergeBaseArgs tag.Revision
          (headRev_gitbinary (gitExec exampleMaximality) "/repo")) = none →
        semver.GreaterThan u v = false) ∧
    (∃ v, "2.0.0" = semver.String v ∧
      (∃ tag ∈ iterTags (exampleMaximality.tags.map Except.ok),
        semver.NewVersion tag.Name = .ok v ∧
        ∃ tagCommit, (gogitRepo exampleMaximality).CommitObject tag.Target = .ok tagCommit ∧
          (gogitLib exampleMaximality).IsAncestor tagCommit ⟨"f00d"⟩ = (true, none)) ∧
      ∀ tag ∈ iterTags (exampleMaximality.tags.map Except.ok), ∀ u,
        semver.NewVersion tag.Name = .ok u →
        ∀ tagCommit, (gogitRepo exampleMaximality).CommitObject tag.Target = .ok tagCommit →
          (gogitLib exampleMaximality).IsAncestor tagCommit ⟨"f00d"⟩ = (true, none) →
          semver.GreaterThan u v = false) :=
  ⟨by decide, by decide,
    (C1_maximality semver semver_irrefl semver_trans).1 (gitExec exampleMaximality)
      "/repo" "2.0.0" (by decide),
    (C1_maximality semver semver_irrefl semver_trans).2 (gogitLib exampleMaximality)
      "/repo" "2.0.0" (gogitRepo exampleMaximality) "f00d" ⟨"f00d"⟩
      (exampleMaximality.tags.map Except.ok) rfl rfl rfl rfl (by decide)⟩

/-- C2 (ancestry filter, both resolvers). Whenever a resolver succeeds, the returned
string is the canonical string of the parsed name of an enumerated tag whose target
passed the ancestry test against HEAD; and a tag whose ancestry test fails or is
negative can be inserted at any position of the enumeration without changing the
result, whatever its version. -/
theorem C2_ancestry_filter {V : Type} (sv : Semver V) :
    (∀ (x : Exec) (path s : String), (latestTag_gitbinary x sv path).1 = (s, none) →
      ∃ tag ∈ enumerated_gitbinary x path, ∃ v, sv.NewVersion tag.Name = .ok v ∧
        x.Run path (mergeBaseArgs tag.Revision (headRev_gitbinary x path)) = none ∧
        s = sv.String v) ∧
    (∀ (x : Exec) (path out1 out2 : String) (pre post : List RefTag) (tag : RefTag)
        (err : GoError),
      showRefTags out1 = pre ++ post → showRefTags out2 = pre ++ tag :: post →
      x.Run path (mergeBaseArgs tag.Revision (headRev_gitbinary x path)) = some err →
      (latestTag_gitbinary (x.withShowRef out2) sv path).1 =
        (latestTag_gitbinary (x.withShowRef out1) sv path).1) ∧
    (∀ (g : GoGitLib) (path s : String) (repo : Repository) (head : String)
        (headCommit : Commit) (iter : List (Except GoError Tag)),
      g.PlainOpen path = .ok repo → repo.Head = .ok head →
      repo.CommitObject head = .ok headCommit → repo.TagObjects = .ok iter →
      (latestTag_gogit g sv path).1 = (s, none) →
      ∃ tag ∈ iterTags iter, ∃ v tagCommit, sv.NewVersion tag.Name = .ok v ∧
        repo.CommitObject tag.Target = .ok tagCommit ∧
        g.IsAncestor tagCommit headCommit = (true, none) ∧ s = sv.String v) ∧
    (∀ (g : GoGitLib) (path : String) (repo : Repository) (head : String)
        (headCommit : Commit) (pre post : List (Except GoError Tag)) (tag : Tag),
      g.PlainOpen path = .ok repo → repo.Head = .ok head →
      repo.CommitObject head = .ok headCommit →
      (∀ tagCommit, repo.CommitObject tag.Target = .ok tagCommit →
        g.IsAncestor tagCommit headCommit ≠ (true, none)) →
      (latestTag_gogit (g.withTagObjects (pre ++ .ok tag :: post)) sv path).1 =
        (latestTag_gogit (g.withTagObjects (pre ++ post)) sv path).1) := by
  refine ⟨?_, ?_, ?_, ?_⟩
  · intro x path s h
    obtain ⟨v, hv, hs⟩ := gitbinary_ok x sv path s h
    rcases reduce_mem sv _ _ _ hv with hm | hm
    · obtain ⟨tag, htag, hc⟩ := List.mem_filterMap.mp hm
      obtain ⟨hp, hr⟩ := (candidate_gitbinary_some x sv path _ tag v).mp hc
      exact ⟨tag, htag, v, hp, hr, hs⟩
    · cases hm
  · intro x path out1 out2 pre post tag err h1 h2 hr
    refine gitbinary_insert x sv path out1 out2 pre post tag h1 h2 (fun _ _ => ?_)
    cases hc : candidate_gitbinary x sv path (headRev_gitbinary x path) tag with
    | none => rfl
    | some v =>
      have := ((candidate_gitbinary_some x sv path _ tag v).mp hc).2
      rw [hr] at this
      cases this
  · intro g path s repo head headCommit iter hopen hhead hcommit htags h
    obtain ⟨v, hv, hs⟩ :=
      gogit_ok g sv path s repo head headCommit iter hopen hhead hcommit htags h
    rcases reduce_mem sv _ _ _ hv with hm | hm
    · obtain ⟨tag, htag, hc⟩ := List.mem_filterMap.mp hm
      obtain ⟨hp, tagCommit, hco, ha⟩ :=
        (candidate_gogit_some g sv repo headCommit tag v).mp hc
      exact ⟨tag, htag, v, tagCommit, hp, hco, ha, hs⟩
    · cases hm
  · intro g path repo head headCommit pre post tag hopen hhead hcommit hna
    refine gogit_insert g sv path pre post tag ?_
    intro repo2 head2 headCommit2 hopen2 hhead2 hcommit2
    rw [hopen] at hopen2
    cases hopen2
    rw [hhead] at hhead2
    cases hhead2
    rw [hcommit] at hcommit2
    cases hcommit2
    cases hc : candidate_gogit g sv repo headCommit tag with
    | none => rfl
    | some v =>
      obtain ⟨_, tagCommit, hco, ha⟩ :=
        (candidate_gogit_some g sv repo headCommit tag v).mp hc
      exact absurd ha (hna tagCommit hco)

/-- Witness of C2: with tag "1.0.0" on an ancestor and tag "9.9.9" on a diverged
branch both resolvers return "1.0.0", the same as without the tag "9.9.9". -/
theorem C2_ancestry_filter_witness :
    (latestTag_gitbinary (gitExec exampleAncestry) semver "/repo").1 = ("1.0.0", none) ∧
    (latestTag_gogit (gogitLib exampleAncestry) semver "/repo").1 = ("1.0.0", none) ∧
    (∃ tag ∈ enumerated_gitbinary (gitExec exampleAncestry) "/repo", ∃ v,
      semver.NewVersion tag.Name = .ok v ∧
      (gitExec exampleAncestry).Run "/repo" (mergeBaseArgs tag.Revision
        (headRev_gitbinary (gitExec exampleAncestry) "/repo")) = none ∧
      "1.0.0" = semver.String v) ∧
    (latestTag_gitbinary ((gitExec exampleAncestry).withShowRef
        (showRefListing [⟨"a1", "1.0.0", "c1"⟩, ⟨"a2", "9.9.9", "c2"⟩])) semver "/repo").1 =
      (latestTag_gitbinary ((gitExec exampleAncestry).withShowRef
        (showRefListing [⟨"a1", "1.0.0", "c1"⟩])) semver "/repo").1 ∧
    (latestTag_gogit ((gogitLib exampleAncestry).withTagObjects
        ([.ok ⟨"a1", "1.0.0", "c1"⟩] ++ .ok ⟨"a2", "9.9.9", "c2"⟩ :: [])) semver "/repo").1 =
      (latestTag_gogit ((gogitLib exampleAncestry).withTagObjects
        ([.ok ⟨"a1", "1.0.0", "c1"⟩] ++ [])) semver "/repo").1 :=
  ⟨by decide, by decide,
    (C2_ancestry_filter semver).1 (gitExec exampleAncestry) "/repo" "1.0.0" (by decide),
    (C2_ancestry_filter semver).2.1 (gitExec exampleAncestry) "/repo"
      (showRefListing [⟨"a1", "1.0.0", "c1"⟩])
      (showRefListing [⟨"a1", "1.0.0", "c1"⟩, ⟨"a2", "9.9.9", "c2"⟩])
      [⟨"1.0.0", "c1"⟩] [] ⟨"9.9.9", "c2"⟩ (.errorString "exit status 1")
      (by decide) (by decide) (by decide),
    (C2_ancestry_filter semver).2.2.2 (gogitLib exampleAncestry) "/repo"
      (gogitRepo exampleAncestry) "f00d" ⟨"f00d"⟩ [.ok ⟨"a1", "1.0.0", "c1"⟩] []
      ⟨"a2", "9.9.9", "c2"⟩ rfl rfl rfl (by
        intro tagCommit h
        cases h
        decide)⟩

/-- C3 (parse filter, both resolvers). A tag whose name does not parse as a semantic
version can be inserted at any position of the enumeration without changing the
result of the resolver: the returned version string or the failure stays the same. -/
theorem C3_parse_filter {V : Type} (sv : Semver V) :
    (∀ (x : Exec) (path out1 out2 : String) (pre post : List RefTag) (tag : RefTag)
        (err : GoError),
      showRefTags out1 = pre ++ post → showRefTags out2 = pre ++ tag :: post →
      sv.NewVersion tag.Name = .error err →
      (latestTag_gitbinary (x.withShowRef out2) sv path).1 =
        (latestTag_gitbinary (x.withShowRef out1) sv path).1) ∧
    (∀ (g : GoGitLib) (path : String) (pre post : List (Except GoError Tag)) (tag : Tag)
        (err : GoError),
      sv.NewVersion tag.Name = .error err →
      (latestTag_gogit (g.withTagObjects (pre ++ .ok tag :: post)) sv path).1 =
        (latestTag_gogit (g.withTagObjects (pre ++ post)) sv path).1) := by
  refine ⟨?_, ?_⟩
  · intro x path out1 out2 pre post tag err h1 h2 hp
    refine gitbinary_insert x sv path out1 out2 pre post tag h1 h2 (fun _ _ => ?_)
    simp [candidate_gitbinary, hp]
  · intro g path pre post tag err hp
    refine gogit_insert g sv path pre post tag ?_
    intro repo head headCommit _ _ _
    simp [candidate_gogit, hp]

/-- Witness of C3: the tag "release-candidate-7" between the tags "1.0.0" and "1.1.0"
leaves the result "1.1.0" of both resolvers unchanged. -/
theorem C3_parse_filter_witness :
    semver.NewVersion "release-candidate-7" = .error ErrInvalidSemVer ∧
    (latestTag_gitbinary ((gitExec exampleParse).withShowRef
        (showRefListing [⟨"a1", "1.0.0", "c1"⟩, ⟨"a2", "release-candidate-7", "c2"⟩,
          ⟨"a3", "1.1.0", "c3"⟩])) semver "/repo").1 = ("1.1.0", none) ∧
    (latestTag_gitbinary ((gitExec exampleParse).withShowRef
        (showRefListing [⟨"a1", "1.0.0", "c1"⟩, ⟨"a2", "release-candidate-7", "c2"⟩,
          ⟨"a3", "1.1.0", "c3"⟩])) semver "/repo").1 =
      (latestTag_gitbinary ((gitExec exampleParse).withShowRef
        (showRefListing [⟨"a1", "1.0.0", "c1"⟩, ⟨"a3", "1.1.0", "c3"⟩])) semver "/repo").1 ∧
    (latestTag_gogit ((gogitLib exampleParse).withTagObjects
        ([.ok ⟨"a1", "1.0.0", "c1"⟩] ++ .ok ⟨"a2", "release-candidate-7", "c2"⟩ ::
          [.ok ⟨"a3", "1.1.0", "c3"⟩])) semver "/repo").1 =
      (latestTag_gogit ((gogitLib exampleParse).withTagObjects
        ([.ok ⟨"a1", "1.0.0", "c1"⟩] ++ [.ok ⟨"a3", "1.1.0", "c3"⟩])) semver "/repo").1 :=
  ⟨rfl, by decide,
    (C3_parse_filter semver).1 (gitExec exampleParse) "/repo"
      (showRefListing [⟨"a1", "1.0.0", "c1"⟩, ⟨"a3", "1.1.0", "c3"⟩])
      (showRefListing [⟨"a1", "1.0.0", "c1"⟩, ⟨"a2", "release-candidate-7", "c2"⟩,
        ⟨"a3", "1.1.0", "c3"⟩])
      [⟨"1.0.0", "c1"⟩] [⟨"1.1.0", "c3"⟩] ⟨"release-candidate-7", "c2"⟩ ErrInvalidSemVer
      (by decide) (by decide) rfl,
    (C3_parse_filter semver).2 (gogitLib exampleParse) "/repo"
      [.ok ⟨"a1", "1.0.0", "c1"⟩] [.ok ⟨"a3", "1.1.0", "c3"⟩]
      ⟨"a2", "release-candidate-7", "c2"⟩ ErrInvalidSemVer rfl⟩

/-- The empty result, as far as the code delivers it. Once the tool lookup or
repository open, the HEAD resolution and the tag enumeration have succeeded, a
resolver fails with its no-matching-tag error exactly when no enumerated tag both
parses and passes the ancestry test, and succeeds otherwise; and no resolver reports
its no-matching-tag error when the lookup, the open, the HEAD resolution, the
`show-ref` command or `TagObjects()` failed. -/
theorem empty_result_iff {V : Type} (sv : Semver V) :
    (∀ (x : Exec) (path : String), x.LookPath "git" = none →
      (x.CombinedOutput path revParseArgs).2 = none →
      (x.CombinedOutput path showRefArgs).2 = none →
      ((latestTag_gitbinary x sv path).1 = ("", some noMatch_gitbinary) ↔
        ∀ tag ∈ enumerated_gitbinary x path, ∀ v, sv.NewVersion tag.Name = .ok v →
          x.Run path (mergeBaseArgs tag.Revision (headRev_gitbinary x path)) ≠ none) ∧
      ((∃ tag ∈ enumerated_gitbinary x path, ∃ v, sv.NewVersion tag.Name = .ok v ∧
          x.Run path (mergeBaseArgs tag.Revision (headRev_gitbinary x path)) = none) →
        ∃ s, (latestTag_gitbinary x sv path).1 = (s, none))) ∧
    (∀ (x : Exec) (path : String),
      (latestTag_gitbinary x sv path).1.2 = some noMatch_gitbinary →
      x.LookPath "git" = none ∧ (x.CombinedOutput path revParseArgs).2 = none ∧
        (x.CombinedOutput path showRefArgs).2 = none) ∧
    (∀ (g : GoGitLib) (path : String) (repo : Repository) (head : String)
        (headCommit : Commit) (iter : List (Except GoError Tag)),
      g.PlainOpen path = .ok repo → repo.Head = .ok head →
      repo.CommitObject head = .ok headCommit → repo.TagObjects = .ok iter →
      iterEnd iter = GoError.EOF →
      ((latestTag_gogit g sv path).1 = ("", some noMatch_gogit) ↔
        ∀ tag ∈ iterTags iter, ∀ v, sv.NewVersion tag.Name = .ok v →
          ∀ tagCommit, repo.CommitObject tag.Target = .ok tagCommit →
            g.IsAncestor tagCommit headCommit ≠ (true, none)) ∧
      ((∃ tag ∈ iterTags iter, ∃ v tagCommit, sv.NewVersion tag.Name = .ok v ∧
          repo.CommitObject tag.Target = .ok tagCommit ∧
          g.IsAncestor tagCommit headCommit = (true, none)) →
        ∃ s, (latestTag_gogit g sv path).1 = (s, none))) ∧
    (∀ (g : GoGitLib) (path : String),
      (latestTag_gogit g sv path).1.2 = some noMatch_gogit →
      ∃ repo head headCommit iter, g.PlainOpen path = .ok repo ∧ repo.Head = .ok head ∧
        repo.CommitObject head = .ok headCommit ∧ repo.TagObjects = .ok iter) := by
  refine ⟨?_, ?_, ?_, ?_⟩
  · intro x path hl hr hs
    rw [gitbinary_result x sv path hl hr hs]
    cases hred : reduce sv ((enumerated_gitbinary x path).filterMap
        (candidate_gitbinary x sv path (headRev_gitbinary x path))) none with
    | none =>
      have hnil := (reduce_eq_none sv _).mp hred
      have hnone : ∀ tag ∈ enumerated_gitbinary x path,
          candidate_gitbinary x sv path (headRev_gitbinary x path) tag = none := by
        simpa [List.filterMap_eq_nil_iff] using hnil
      refine ⟨⟨fun _ tag htag v hp hrun => ?_, fun _ => rfl⟩, ?_⟩
      · have := (candidate_gitbinary_some x sv path _ tag v).mpr ⟨hp, hrun⟩
        rw [hnone tag htag] at this
        cases this
      · rintro ⟨tag, htag, v, hp, hrun⟩
        have := (candidate_gitbinary_some x sv path _ tag v).mpr ⟨hp, hrun⟩
        rw [hnone tag htag] at this
        cases this
    | some m =>
      refine ⟨⟨fun h => ?_, fun h => ?_⟩, fun _ => ⟨sv.String m, rfl⟩⟩
      · simp at h
      · exfalso
        rcases reduce_mem sv _ _ _ hred with hm | hm
        · obtain ⟨tag, htag, hc⟩ := List.mem_filterMap.mp hm
          obtain ⟨hp, hrun⟩ := (candidate_gitbinary_some x sv path _ tag m).mp hc
          exact h tag htag m hp hrun
        · cases hm
  · intro x path h
    rw [gitbinary_fst] at h
    cases hl : x.LookPath "git" with
    | some e =>
      simp only [hl, Option.some.injEq] at h
      exact absurd h (errorf_v_ne_noMatch_gitbinary e).1
    | none =>
      cases hr : (x.CombinedOutput path revParseArgs).2 with
      | some e =>
        simp only [hl, hr, Option.some.injEq] at h
        exact absurd h (errorf_v_ne_noMatch_gitbinary e).2.1
      | none =>
        cases hs : (x.CombinedOutput path showRefArgs).2 with
        | some e =>
          simp only [hl, hr, hs, Option.some.injEq] at h
          exact absurd h (errorf_v_ne_noMatch_gitbinary e).2.2
        | none => exact ⟨rfl, rfl, rfl⟩
  · intro g path repo head headCommit iter hopen hhead hcommit htags _
    rw [gogit_result g sv path repo head headCommit iter hopen hhead hcommit htags]
    cases hred : reduce sv ((iterTags iter).filterMap
        (candidate_gogit g sv repo headCommit)) none with
    | none =>
      have hnil := (reduce_eq_none sv _).mp hred
      have hnone : ∀ tag ∈ iterTags iter,
          candidate_gogit g sv repo headCommit tag = none := by
        simpa [List.filterMap_eq_nil_iff] using hnil
      refine ⟨⟨fun _ tag htag v hp tagCommit hco ha => ?_, fun _ => rfl⟩, ?_⟩
      · have := (candidate_gogit_some g sv repo headCommit tag v).mpr ⟨hp, tagCommit, hco, ha⟩
        rw [hnone tag htag] at this
        cases this
      · rintro ⟨tag, htag, v, tagCommit, hp, hco, ha⟩
        have := (candidate_gogit_some g sv repo headCommit tag v).mpr ⟨hp, tagCommit, hco, ha⟩
        rw [hnone tag htag] at this
        cases this
    | some m =>
      refine ⟨⟨fun h => ?_, fun h => ?_⟩, fun _ => ⟨sv.String m, rfl⟩⟩
      · simp at h
      · exfalso
        rcases reduce_mem sv _ _ _ hred with hm | hm
        · obtain ⟨tag, htag, hc⟩ := List.mem_filterMap.mp hm
          obtain ⟨hp, tagCommit, hco, ha⟩ :=
            (candidate_gogit_some g sv repo headCommit tag m).mp hc
          exact h tag htag m hp tagCommit hco ha
        · cases hm
  · intro g path h
    rw [gogit_fst] at h
    cases ho : g.PlainOpen path with
    | error e => simp [ho, Errorf_w, noMatch_gogit] at h
    | ok repo =>
      cases hh : repo.Head with
      | error e =>
        simp only [ho, hh, Option.some.injEq] at h
        exact absurd h (errorf_v_ne_noMatch_gogit e).1
      | ok head =>
        cases hc : repo.CommitObject head with
        | error e =>
          simp only [ho, hh, hc, Option.some.injEq] at h
          exact absurd h (errorf_v_ne_noMatch_gogit e).2
        | ok headCommit =>
          cases ht : repo.TagObjects with
          | error e => simp [ho, hh, hc, ht, Errorf_w, noMatch_gogit] at h
          | ok iter => exact ⟨repo, head, headCommit, iter, rfl, hh, hc, ht⟩

/-- In a repository without tags both resolvers fail with their no-matching-tag
error. -/
theorem empty_result_noTags :
    (latestTag_gitbinary (gitExec exampleNoTags) semver "/repo").1 =
      ("", some noMatch_gitbinary) ∧
    (latestTag_gogit (gogitLib exampleNoTags) semver "/repo").1 =
      ("", some noMatch_gogit) :=
  ⟨by decide, by decide⟩

/-- C4, the code at the failing input. The repository opens, HEAD resolves and
`TagObjects()` returns an iterator, but the first `Next()` fails with an error other
than `io.EOF`: `latestTag_gogit` returns its no-matching-tag error, the very result
pair it returns for a repository without tags. The no-matching-tag failure is thus
not told apart from a failure of the tag enumeration. -/
theorem C4_failed_enumeration_reports_no_match :
    iterEnd exampleFailedIter = GoError.errorString "object not found" ∧
    iterEnd exampleFailedIter ≠ GoError.EOF ∧
    (latestTag_gogit ((gogitLib exampleNoTags).withTagObjects exampleFailedIter)
        semver "/repo").1 = ("", some noMatch_gogit) ∧
    (latestTag_gogit ((gogitLib exampleNoTags).withTagObjects exampleFailedIter)
        semver "/repo").1 = (latestTag_gogit (gogitLib exampleNoTags) semver "/repo").1 :=
  ⟨by decide, by decide, by decide, by decide⟩

/-- C5 (invalid method). For a method value other than `GitBinary` (0) and `GoGit`
(1), and every path, `Latest` returns the empty string and an error whose message is
"invalid method: " followed by the decimal value, and makes no outside call; for
`GitBinary` and `GoGit` it returns exactly what the matching resolver returns. -/
theorem C5_invalid_method {V : Type} (x : Exec) (g : GoGitLib) (sv : Semver V)
    (path : String) :
    (∀ method : Nat, method ≠ GitBinary → method ≠ GoGit →
      Latest x g sv method path =
        (("", some (GoError.errorString ("invalid method: " ++ toString method))), [])) ∧
    Latest x g sv GitBinary path = latestTag_gitbinary x sv path ∧
    Latest x g sv GoGit path = latestTag_gogit g sv path := by
  refine ⟨?_, ?_, ?_⟩
  · intro method h0 h1
    simp [Latest, h0, h1, Errorf_d]
  · simp [Latest]
  · simp [Latest, GoGit, GitBinary]

/-- Witness of C5: method 7 on a working repository. -/
theorem C5_invalid_method_witness :
    Latest (gitExec exampleMaximality) (gogitLib exampleMaximality) semver 7 "/repo" =
      (("", some (GoError.errorString "invalid method: 7")), []) :=
  (C5_invalid_method (gitExec exampleMaximality) (gogitLib exampleMaximality) semver
    "/repo").1 7 (by decide) (by decide)

/-- After a successful `TagObjects()` no error of `Next()` reaches the caller: the
result is never a "get next tag" error. -/
theorem gogit_never_next_error {V : Type} (g : GoGitLib) (sv : Semver V) (path : String)
    (e : GoError) :
    (latestTag_gogit g sv path).1.2 ≠ some (Errorf_w "get next tag: " e) := by
  rw [gogit_fst]
  intro h
  cases ho : g.PlainOpen path with
  | error err =>
    simp only [ho] at h
    have h2 := congrArg (fun o => (o.map GoError.Error).map fun m => m.data.take 1) h
    revert h2
    simp [Errorf_w, GoError.Error, String.data_append]
  | ok repo =>
    simp only [ho] at h
    cases hh : repo.Head with
    | error err =>
      simp only [hh] at h
      simp [Errorf_v, Errorf_w] at h
    | ok head =>
      simp only [hh] at h
      cases hc : repo.CommitObject head with
      | error err =>
        simp only [hc] at h
        simp [Errorf_v, Errorf_w] at h
      | ok headCommit =>
        simp only [hc] at h
        cases ht : repo.TagObjects with
        | error err =>
          simp only [ht] at h
          have h2 := congrArg (fun o => (o.map GoError.Error).map fun m => m.data.take 5) h
          revert h2
          simp [Errorf_w, GoError.Error, String.data_append]
        | ok iter =>
          simp only [ht] at h
          cases hr : reduce sv ((iterTags iter).filterMap
              (candidate_gogit g sv repo headCommit)) none with
          | none =>
            simp only [hr] at h
            simp [noMatch_gogit, Errorf_w] at h
          | some ver =>
            simp only [hr] at h
            simp at h

/-- C7, the code at the failing input. The iterator hands out the tag "1.0.0" (on an
ancestor of HEAD) and its next `Next()` fails with "object not found", an error other
than `io.EOF`: `latestTag_gogit` returns ("1.0.0", nil) and no error. The variable
`err` read after the loop is the variable of the function, not the loop's: for every
library, capability and path the result is never the "get next tag" error. -/
theorem C7_next_error_not_reported :
    iterEnd exampleBrokenIter = GoError.errorString "object not found" ∧
    iterEnd exampleBrokenIter ≠ GoError.EOF ∧
    (latestTag_gogit ((gogitLib exampleMaximality).withTagObjects exampleBrokenIter)
        semver "/repo").1 = ("1.0.0", none) ∧
    (latestTag_gogit ((gogitLib exampleMaximality).withTagObjects exampleBrokenIter)
        semver "/repo").1 ≠
      ("", some (GoError.wrapError "get next tag: object not found"
        (.errorString "object not found"))) ∧
    afterLoop_gogit semver (some (GoError.errorString "object not found"))
        (some ⟨1, 0, 0, "", ""⟩) =
      ("", some (GoError.wrapError "get next tag: object not found"
        (.errorString "object not found"))) :=
  ⟨by decide, by decide, by decide, by decide, by decide⟩

/-- C8, the claim refuted: in a directory that is not a repository `rev-parse` prints
"fatal: not a git repository ..." and exits with status 128; the error that
`latestTag_gitbinary` returns has the message "cmd git rev-parse: exit status 128",
which contains neither the output nor its first word, and it wraps nothing. The same
holds for a failing `show-ref`. -/
theorem C8_counterexample :
    exampleNotARepo.CombinedOutput "/tmp" revParseArgs =
      ("fatal: not a git repository (or any of the parent directories): .git\n",
        some (.errorString "exit status 128")) ∧
    (latestTag_gitbinary exampleNotARepo semver "/tmp").1 =
      ("", some (.errorString "cmd git rev-parse: exit status 128")) ∧
    ¬ ("fatal: not a git repository (or any of the parent directories): .git\n".data <:+:
        (GoError.errorString "cmd git rev-parse: exit status 128").Error.data) ∧
    ¬ ("fatal".data <:+:
        (GoError.errorString "cmd git rev-parse: exit status 128").Error.data) ∧
    (GoError.errorString "cmd git rev-parse: exit status 128").Unwrap = none ∧
    exampleShowRefFails.CombinedOutput "/tmp" showRefArgs =
      ("error: cannot lock ref\n", some (.errorString "exit status 1")) ∧
    (latestTag_gitbinary exampleShowRefFails semver "/tmp").1 =
      ("", some (.errorString "cmd git show-ref: exit status 1")) ∧
    ¬ ("error: cannot lock ref\n".data <:+:
        (GoError.errorString "cmd git show-ref: exit status 1").Error.data) := by
  refine ⟨rfl, by decide, by decide, by decide, rfl, by decide, by decide, by decide⟩

/-- C8 as amended (error wrapping in the process-backed resolver). When the `git`
executable is found and `rev-parse HEAD` returns an error, `latestTag_gitbinary`
returns the empty string and an error whose message is "cmd git rev-parse: " followed
by the message of the command's error (its exit status), whatever the output was, and
runs no further command; when `rev-parse` succeeds and `show-ref` returns an error,
the message is "cmd git show-ref: " followed by the message of that error, and no
ancestry test is run. -/
theorem C8_error_wrapping {V : Type} (x : Exec) (sv : Semver V) (path : String)
    (hlook : x.LookPath "git" = none) :
    (∀ (out : String) (err : GoError),
      x.CombinedOutput path revParseArgs = (out, some err) →
      latestTag_gitbinary x sv path =
        (("", some (GoError.errorString ("cmd git rev-parse: " ++ err.Error))),
          [Call.LookPath "git", Call.Command path revParseArgs])) ∧
    (∀ (out1 out2 : String) (err : GoError),
      x.CombinedOutput path revParseArgs = (out1, none) →
      x.CombinedOutput path showRefArgs = (out2, some err) →
      latestTag_gitbinary x sv path =
        (("", some (GoError.errorString ("cmd git show-ref: " ++ err.Error))),
          [Call.LookPath "git", Call.Command path revParseArgs,
            Call.Command path showRefArgs])) := by
  refine ⟨?_, ?_⟩
  · intro out err h
    simp [latestTag_gitbinary, hlook, h, Errorf_v]
  · intro out1 out2 err h1 h2
    simp [latestTag_gitbinary, hlook, h1, h2, Errorf_v]

/-- Witness of C8 as amended: the directory that is not a repository, and the
repository in which `show-ref` fails. -/
theorem C8_error_wrapping_witness :
    latestTag_gitbinary exampleNotARepo semver "/tmp" =
      (("", some (GoError.errorString "cmd git rev-parse: exit status 128")),
        [Call.LookPath "git", Call.Command "/tmp" revParseArgs]) ∧
    latestTag_gitbinary exampleShowRefFails semver "/tmp" =
      (("", some (GoError.errorString "cmd git show-ref: exit status 1")),
        [Call.LookPath "git", Call.Command "/tmp" revParseArgs,
          Call.Command "/tmp" showRefArgs]) :=
  ⟨(C8_error_wrapping exampleNotARepo semver "/tmp" rfl).1
      "fatal: not a git repository (or any of the parent directories): .git\n"
      (.errorString "exit status 128") rfl,
    (C8_error_wrapping exampleShowRefFails semver "/tmp" rfl).2
      "f00d\n" "error: cannot lock ref\n" (.errorString "exit status 1") rfl rfl⟩

/-- C10 (tie-breaking, both resolvers). Let a surviving tag with version `v` stand
in the enumeration such that no surviving tag has a version strictly greater than `v`
and no surviving tag before it has a version the comparator reports equal to `v`
(neither greater than the other). Then the resolver returns the canonical string of
`v`: the first of the equal greatest candidates wins. -/
theorem C10_tie_breaking {V : Type} (sv : Semver V) :
    (∀ (x : Exec) (path : String) (pre post : List RefTag) (tag : RefTag) (v : V),
      x.LookPath "git" = none → (x.CombinedOutput path revParseArgs).2 = none →
      (x.CombinedOutput path showRefArgs).2 = none →
      enumerated_gitbinary x path = pre ++ tag :: post →
      sv.NewVersion tag.Name = .ok v →
      x.Run path (mergeBaseArgs tag.Revision (headRev_gitbinary x path)) = none →
      (∀ t ∈ enumerated_gitbinary x path, ∀ u, sv.NewVersion t.Name = .ok u →
        x.Run path (mergeBaseArgs t.Revision (headRev_gitbinary x path)) = none →
        sv.GreaterThan u v = false) →
      (∀ t ∈ pre, ∀ u, sv.NewVersion t.Name = .ok u →
        x.Run path (mergeBaseArgs t.Revision (headRev_gitbinary x path)) = none →
        ¬ (sv.GreaterThan u v = false ∧ sv.GreaterThan v u = false)) →
      (latestTag_gitbinary x sv path).1 = (sv.String v, none)) ∧
    (∀ (g : GoGitLib) (path : String) (repo : Repository) (head : String)
        (headCommit : Commit) (iter : List (Except GoError Tag))
        (pre post : List Tag) (tag : Tag) (v : V) (tagCommit : Commit),
      g.PlainOpen path = .ok repo → repo.Head = .ok head →
      repo.CommitObject head = .ok headCommit → repo.TagObjects = .ok iter →
      iterEnd iter = GoError.EOF →
      iterTags iter = pre ++ tag :: post →
      sv.NewVersion tag.Name = .ok v →
      repo.CommitObject tag.Target = .ok tagCommit →
      g.IsAncestor tagCommit headCommit = (true, none) →
      (∀ t ∈ iterTags iter, ∀ u, sv.NewVersion t.Name = .ok u →
        ∀ c, repo.CommitObject t.Target = .ok c → g.IsAncestor c headCommit = (true, none) →
        sv.GreaterThan u v = false) →
      (∀ t ∈ pre, ∀ u, sv.NewVersion t.Name = .ok u →
        ∀ c, repo.CommitObject t.Target = .ok c → g.IsAncestor c headCommit = (true, none) →
        ¬ (sv.GreaterThan u v = false ∧ sv.GreaterThan v u = false)) →
      (latestTag_gogit g sv path).1 = (sv.String v, none)) := by
  refine ⟨?_, ?_⟩
  · intro x path pre post tag v hl hr hs henum hp hrun hmax hfirst
    rw [gitbinary_result x sv path hl hr hs, henum, List.filterMap_append,
      List.filterMap_cons, (candidate_gitbinary_some x sv path _ tag v).mpr ⟨hp, hrun⟩]
    rw [henum] at hmax
    have hred := reduce_first sv
      (pre.filterMap (candidate_gitbinary x sv path (headRev_gitbinary x path)))
      (post.filterMap (candidate_gitbinary x sv path (headRev_gitbinary x path))) v
      (by
        intro u hu
        obtain ⟨t, ht, hc⟩ := List.mem_filterMap.mp hu
        obtain ⟨hpu, hru⟩ := (candidate_gitbinary_some x sv path _ t u).mp hc
        have h1 := hmax t (by simp [ht]) u hpu hru
        have h2 := hfirst t ht u hpu hru
        cases hg : sv.GreaterThan v u with
        | true => rfl
        | false => exact absurd ⟨h1, hg⟩ h2)
      (by
        intro u hu
        obtain ⟨t, ht, hc⟩ := List.mem_filterMap.mp hu
        obtain ⟨hpu, hru⟩ := (candidate_gitbinary_some x sv path _ t u).mp hc
        exact hmax t (by simp [ht]) u hpu hru)
    simp only [hred]
  · intro g path repo head headCommit iter pre post tag v tagCommit hopen hhead hcommit
      htags hend henum hp hco ha hmax hfirst
    rw [gogit_result g sv path repo head headCommit iter hopen hhead hcommit htags,
      henum, List.filterMap_append, List.filterMap_cons,
      (candidate_gogit_some g sv repo headCommit tag v).mpr ⟨hp, tagCommit, hco, ha⟩]
    rw [henum] at hmax
    have hred := reduce_first sv
      (pre.filterMap (candidate_gogit g sv repo headCommit))
      (post.filterMap (candidate_gogit g sv repo headCommit)) v
      (by
        intro u hu
        obtain ⟨t, ht, hc⟩ := List.mem_filterMap.mp hu
        obtain ⟨hpu, c, hcu, hau⟩ := (candidate_gogit_some g sv repo headCommit t u).mp hc
        have h1 := hmax t (by simp [ht]) u hpu c hcu hau
        have h2 := hfirst t ht u hpu c hcu hau
        cases hg : sv.GreaterThan v u with
        | true => rfl
        | false => exact absurd ⟨h1, hg⟩ h2)
      (by
        intro u hu
        obtain ⟨t, ht, hc⟩ := List.mem_filterMap.mp hu
        obtain ⟨hpu, c, hcu, hau⟩ := (candidate_gogit_some g sv repo headCommit t u).mp hc
        exact hmax t (by simp [ht]) u hpu c hcu hau)
    simp [hred]


/-- Witness of C10: the tags "1.0.0+a" and "1.0.0+b" compare equal (build metadata has
no part in precedence); the process-backed resolver, which meets "1.0.0+a" first,
returns "1.0.0+a". -/
theorem C10_tie_breaking_witness :
    semver.GreaterThan ⟨1, 0, 0, "", "a"⟩ ⟨1, 0, 0, "", "b"⟩ = false ∧
    semver.GreaterThan ⟨1, 0, 0, "", "b"⟩ ⟨1, 0, 0, "", "a"⟩ = false ∧
    (latestTag_gitbinary (gitExec exampleTie) semver "/repo").1 = ("1.0.0+a", none) :=
  ⟨by decide, by decide,
    (C10_tie_breaking semver).1 (gitExec exampleTie) "/repo" []
      [⟨"1.0.0+b", "c2"⟩] ⟨"1.0.0+a", "c1"⟩ ⟨1, 0, 0, "", "a"⟩ rfl rfl rfl
      (by decide) rfl (by decide)
      (by
        intro t ht u hpu _
        have henum : enumerated_gitbinary (gitExec exampleTie) "/repo" =
            [⟨"1.0.0+a", "c1"⟩, ⟨"1.0.0+b", "c2"⟩] := by decide
        rw [henum] at ht
        simp only [List.mem_cons, List.mem_singleton, List.not_mem_nil, or_false] at ht
        rcases ht with rfl | rfl
        · have h2 : semver.NewVersion "1.0.0+a" = .ok ⟨1, 0, 0, "", "a"⟩ := rfl
          rw [h2] at hpu
          cases hpu
          decide
        · have h2 : semver.NewVersion "1.0.0+b" = .ok ⟨1, 0, 0, "", "b"⟩ := rfl
          rw [h2] at hpu
          cases hpu
          decide)
      (by
        intro t ht
        cases ht)⟩

/-- C9 (parsing of the `show-ref` listing). For every output, the extracted tags are,
in output order, one pair for each line that ends with the marker `^{}` and has at
least two blank-separated fields; a line `<commit> refs/tags/<name>^{}` with `<commit>`
and `<name>` free of blanks is such a line and its pair is (`<name>`, `<commit>`);
when the output begins with such a line (free of newlines) the pair comes first,
followed by what the rest of the output gives; a line without the marker at its end
gives nothing. -/
theorem C9_showRef_parsing :
    (∀ out : String,
      showRefTags out = ((Split out "\n").filter dereferencedLine).map linePair) ∧
    (∀ commit name : String, ' ' ∉ commit.data → ' ' ∉ name.data →
      dereferencedLine (commit ++ " refs/tags/" ++ name ++ "^\x7b\x7d") = true ∧
      linePair (commit ++ " refs/tags/" ++ name ++ "^\x7b\x7d") =
        { Name := name, Revision := commit }) ∧
    (∀ commit name rest : String, ' ' ∉ commit.data → '\n' ∉ commit.data →
      ' ' ∉ name.data → '\n' ∉ name.data →
      showRefTags (commit ++ " refs/tags/" ++ name ++ "^\x7b\x7d" ++ "\n" ++ rest) =
        { Name := name, Revision := commit } :: showRefTags rest) ∧
    (∀ line rest : String, '\n' ∉ line.data → HasSuffix line "^\x7b\x7d" = false →
      showRefTags (line ++ "\n" ++ rest) = showRefTags rest) ∧
    (∀ line : String, HasSuffix line "^\x7b\x7d" = false → dereferencedLine line = false) := by
  refine ⟨showRefTags_eq, ?_, ?_, ?_, ?_⟩
  · intro commit name hc hn
    exact ⟨derefLine_counted commit name hc hn, derefLine_pair commit name hc hn⟩
  · intro commit name rest hc hcn hn hnn
    rw [showRefTags_line _ _ (by simp [String.data_append, hcn, hnn]),
      derefLine_counted commit name hc hn, derefLine_pair commit name hc hn]
    rfl
  · intro line rest hl hm
    rw [showRefTags_line _ _ hl]
    simp [dereferencedLine, hm]
  · intro line hm
    simp [dereferencedLine, hm]

/-- Witness of C9: the line for the tag "1.0.0" at commit "c1", followed by a line
without the marker. -/
theorem C9_showRef_parsing_witness :
    showRefTags ("c1" ++ " refs/tags/" ++ "1.0.0" ++ "^\x7b\x7d" ++ "\n" ++
        "a2 refs/tags/1.1.0\n") =
      [{ Name := "1.0.0", Revision := "c1" }] ∧
    showRefTags ("a2 refs/tags/1.1.0" ++ "\n" ++ "") = [] :=
  ⟨(C9_showRef_parsing.2.2.1 "c1" "1.0.0" "a2 refs/tags/1.1.0\n" (by decide) (by decide)
      (by decide) (by decide)).trans (by decide),
    (C9_showRef_parsing.2.2.2.1 "a2 refs/tags/1.1.0" "" (by decide) (by decide)).trans
      (by decide)⟩

/-- C6, the claim refuted: the tags "1.0.0+a" and "1.0.0+b" lie on ancestors of HEAD and
compare equal. The process-backed resolver, given the listing with "1.0.0+a" first,
returns "1.0.0+a"; the library-backed resolver, whose iterator hands out the same two
tag objects with "1.0.0+b" first, returns "1.0.0+b". -/
theorem C6_counterexample :
    wellFormed exampleTie = true ∧
    exampleTieSwapped.head = exampleTie.head ∧
    exampleTieSwapped.ancestor = exampleTie.ancestor ∧
    exampleTie.tags.Perm exampleTieSwapped.tags ∧
    (latestTag_gitbinary (gitExec exampleTie) semver "/repo").1 = ("1.0.0+a", none) ∧
    (latestTag_gogit (gogitLib exampleTieSwapped) semver "/repo").1 = ("1.0.0+b", none) ∧
    ¬ sameOutcome (latestTag_gitbinary (gitExec exampleTie) semver "/repo").1
        (latestTag_gogit (gogitLib exampleTieSwapped) semver "/repo").1 := by
  have h1 : (latestTag_gitbinary (gitExec exampleTie) semver "/repo").1 =
      ("1.0.0+a", none) := by decide
  have h2 : (latestTag_gogit (gogitLib exampleTieSwapped) semver "/repo").1 =
      ("1.0.0+b", none) := by decide
  refine ⟨by decide, rfl, rfl, List.Perm.swap _ _ _, h1, h2, ?_⟩
  rw [h1, h2]
  rintro (⟨s, hs1, hs2⟩ | ⟨hs1, _⟩)
  · have e1 : ("1.0.0+a" : String) = s := congrArg Prod.fst hs1
    have e2 : ("1.0.0+b" : String) = s := congrArg Prod.fst hs2
    exact absurd (e1.trans e2.symm) (by decide)
  · exact absurd (congrArg Prod.snd hs1) (by simp)

/-- C6 as amended (equivalence of the two resolvers). On every well-formed repository
state, with the process-backed resolver fed the `show-ref` listing of the tags in one
order and the library-backed resolver fed the tag objects in a possibly different
order, the two resolvers return the same version string or both return their
no-matching-tag error, provided that the two orders coincide, or that the comparator
is irreflexive and transitive and any two surviving tags whose versions compare equal
have the same canonical string. -/
theorem C6_equivalence {V : Type} (sv : Semver V) (head : String)
    (ancestor : String → String → Bool) (tags1 tags2 : List Tag) (path : String)
    (hwf : wellFormed { head := head, tags := tags1, ancestor := ancestor } = true)
    (hperm : tags1.Perm tags2)
    (hord : tags1 = tags2 ∨
      ((∀ a, sv.GreaterThan a a = false) ∧
        (∀ a b c, sv.GreaterThan a b = true → sv.GreaterThan b c = true →
          sv.GreaterThan a c = true) ∧
        (∀ t1 ∈ tags1, ∀ t2 ∈ tags1, ∀ a b,
          sv.NewVersion t1.Name = .ok a → ancestor t1.Target head = true →
          sv.NewVersion t2.Name = .ok b → ancestor t2.Target head = true →
          sv.GreaterThan a b = false → sv.GreaterThan b a = false →
          sv.String a = sv.String b))) :
    sameOutcome
      (latestTag_gitbinary (gitExec { head := head, tags := tags1, ancestor := ancestor })
        sv path).1
      (latestTag_gogit (gogitLib { head := head, tags := tags2, ancestor := ancestor })
        sv path).1 := by
  rw [gitExec_result sv _ path hwf, gogitLib_result]
  simp only
  have hsome : ∀ (t : Tag) (v : V), candidate_state sv head ancestor t = some v →
      sv.NewVersion t.Name = .ok v ∧ ancestor t.Target head = true := by
    intro t v h
    unfold candidate_state at h
    cases hp : sv.NewVersion t.Name with
    | error e => simp [hp] at h
    | ok w =>
      by_cases ha : ancestor t.Target head = true
      · simp [hp, ha] at h
        exact ⟨by rw [h], ha⟩
      · simp [hp, ha] at h
  rcases hord with heq | ⟨hirr, htrans, hties⟩
  · subst heq
    cases reduce sv (tags1.filterMap (candidate_state sv head ancestor)) none with
    | none => exact Or.inr ⟨rfl, rfl⟩
    | some m => exact Or.inl ⟨sv.String m, rfl, rfl⟩
  · rcases reduce_perm sv hirr htrans _ _
      (hperm.filterMap (candidate_state sv head ancestor)) with ⟨h1, h2⟩ | h
    · rw [h1, h2]
      exact Or.inr ⟨rfl, rfl⟩
    · obtain ⟨m1, m2, h1, h2, hm1, hm2, hg1, hg2⟩ := h
      rw [h1, h2]
      obtain ⟨t1, ht1, hc1⟩ := List.mem_filterMap.mp hm1
      obtain ⟨t2, ht2, hc2⟩ := List.mem_filterMap.mp hm2
      obtain ⟨hp1, ha1⟩ := hsome t1 m1 hc1
      obtain ⟨hp2, ha2⟩ := hsome t2 m2 hc2
      have hs := hties t1 ht1 t2 ht2 m1 m2 hp1 ha1 hp2 ha2 hg1 hg2
      exact Or.inl ⟨sv.String m1, rfl, by rw [hs]⟩

/-- Witness of C6 as amended: the tags "1.0.0" and "1.1.0", listed in this order by
`show-ref` and handed out in the other order by the tag iterator; both resolvers
return "1.1.0". -/
theorem C6_equivalence_witness :
    exampleParse.tags.Perm exampleParseSwapped.tags ∧
    (latestTag_gitbinary (gitExec exampleParse) semver "/repo").1 = ("1.1.0", none) ∧
    sameOutcome (latestTag_gitbinary (gitExec exampleParse) semver "/repo").1
      (latestTag_gogit (gogitLib exampleParseSwapped) semver "/repo").1 :=
  ⟨List.Perm.swap _ _ _, by decide,
    C6_equivalence semver "f00d" (fun _ _ => true)
      [⟨"a1", "1.0.0", "c1"⟩, ⟨"a3", "1.1.0", "c3"⟩]
      [⟨"a3", "1.1.0", "c3"⟩, ⟨"a1", "1.0.0", "c1"⟩] "/repo" (by decide)
      (List.Perm.swap _ _ _)
      (Or.inr ⟨semver_irrefl, semver_trans, by
        intro t1 ht1 t2 ht2 a b hp1 _ hp2 _ hg1 hg2
        have e1 : semver.NewVersion "1.0.0" = .ok ⟨1, 0, 0, "", ""⟩ := rfl
        have e2 : semver.NewVersion "1.1.0" = .ok ⟨1, 1, 0, "", ""⟩ := rfl
        simp only [List.mem_cons, List.mem_singleton, List.not_mem_nil, or_false] at ht1 ht2
        rcases ht1 with rfl | rfl <;> rcases ht2 with rfl | rfl
        · rw [e1] at hp1 hp2
          cases hp1
          cases hp2
          rfl
        · rw [e1] at hp1
          rw [e2] at hp2
          cases hp1
          cases hp2
          exact absurd hg2 (by decide)
        · rw [e2] at hp1
          rw [e1] at hp2
          cases hp1
          cases hp2
          exact absurd hg1 (by decide)
        · rw [e2] at hp1 hp2
          cases hp1
          cases hp2
          rfl⟩)⟩

end Version
